import Mathlib

/-!
Verification development for the boats-ai-agent query pipeline.

The definitions below are a shallow embedding of the deterministic core of
the repository:

* `to_absolute_range` embeds `src/utils/date_normalizer.py` (the
  Time-Intent Normalizer).  Python `datetime.date` objects are modelled by
  `Date` (proleptic Gregorian calendar restricted to years 1..9999, exactly
  Python's `MINYEAR`/`MAXYEAR`); `date - timedelta(days=k)` is modelled by
  `subDays`, which returns `none` when the result would fall before
  0001-01-01 (Python raises `OverflowError`, which the normalizer's broad
  `except Exception` turns into `None`).  Python/JSON values are modelled
  by `PyVal`, with dicts as ordered association lists and Python
  truthiness as `pyTruthy`.

* `forward_post` embeds the deterministic post-processing of
  `ValidatorModule.forward` (`src/modules/mapper/validator_module.py`,
  lines 59-100) on a parsed JSON object; `none` models an uncaught
  exception (the code only catches `json.JSONDecodeError`).

* `validate_query` / `validate_query_fields` embed
  `LookerQueryBuilder.validate_query` (`src/looker/query_builder.py`) and
  `ExploreSchemaLoader.validate_query_fields`
  (`src/looker/schema_loader.py`).

* `add_filters` embeds `LookerQueryBuilder._add_filters`
  (`src/looker/query_builder.py`, lines 113-136), with the four regex
  searches modelled character by character over ASCII text.
-/

/-- Leap year test of the proleptic Gregorian calendar (Python
`calendar.isleap` semantics, as used by `datetime.date`). -/
def isLeap (y : Nat) : Bool :=
  decide ((y % 4 = 0 ∧ y % 100 ≠ 0) ∨ y % 400 = 0)

/-- Number of days in month `m` of year `y` (months are 1-based). -/
def daysInMonth (y : Nat) (m : Nat) : Nat :=
  if m = 1 then 31
  else if m = 2 then (if isLeap y then 29 else 28)
  else if m = 3 then 31
  else if m = 4 then 30
  else if m = 5 then 31
  else if m = 6 then 30
  else if m = 7 then 31
  else if m = 8 then 31
  else if m = 9 then 30
  else if m = 10 then 31
  else if m = 11 then 30
  else if m = 12 then 31
  else 0

/-- Days of year `y` that precede the first day of month `m`. -/
def daysBeforeMonth (y : Nat) (m : Nat) : Nat :=
  let base :=
    if m = 1 then 0
    else if m = 2 then 31
    else if m = 3 then 59
    else if m = 4 then 90
    else if m = 5 then 120
    else if m = 6 then 151
    else if m = 7 then 181
    else if m = 8 then 212
    else if m = 9 then 243
    else if m = 10 then 273
    else if m = 11 then 304
    else if m = 12 then 334
    else 0
  if 3 ≤ m ∧ isLeap y then base + 1 else base

/-- A calendar date, modelling Python `datetime.date` (valid instances
have `1 ≤ year ≤ 9999`). -/
structure Date where
  year : Nat
  month : Nat
  day : Nat
deriving DecidableEq

/-- Validity of a `Date`, matching the constructor checks of Python
`datetime.date` (`MINYEAR = 1`, `MAXYEAR = 9999`). -/
def Date.validB (d : Date) : Bool :=
  decide (1 ≤ d.year ∧ d.year ≤ 9999 ∧ 1 ≤ d.month ∧ d.month ≤ 12 ∧
          1 ≤ d.day ∧ d.day ≤ daysInMonth d.year d.month)

/-- Strict lexicographic order on dates (Python date comparison). -/
def dateLtB (a b : Date) : Bool :=
  decide (a.year < b.year ∨ (a.year = b.year ∧ (a.month < b.month ∨
          (a.month = b.month ∧ a.day < b.day))))

/-- Non-strict lexicographic order on dates. -/
def dateLeB (a b : Date) : Bool :=
  decide (a.year < b.year ∨ (a.year = b.year ∧ (a.month < b.month ∨
          (a.month = b.month ∧ a.day ≤ b.day))))

/-- The day before `d`; `none` when `d` is 0001-01-01 (where Python date
arithmetic raises `OverflowError`). -/
def prevDay (d : Date) : Option Date :=
  if 2 ≤ d.day then some ⟨d.year, d.month, d.day - 1⟩
  else if 2 ≤ d.month then some ⟨d.year, d.month - 1, daysInMonth d.year (d.month - 1)⟩
  else if 2 ≤ d.year then some ⟨d.year - 1, 12, 31⟩
  else none

/-- `d - timedelta(days = k)`; `none` models `OverflowError` (result
before the minimum date 0001-01-01). -/
def subDays (d : Date) : Nat → Option Date
  | 0 => some d
  | k + 1 => (subDays d k).bind prevDay

/-- Leap days in years 1..`k` (helper for the day count `rataDie`). -/
def leapsTo (k : Nat) : Int :=
  (k / 4 : Nat) - (k / 100 : Nat) + (k / 400 : Nat)

/-- Rata-die day number of a date (0001-01-01 has number 1).  This is an
independent day count used to state that a range spans a given number of
days; it is not part of the embedded code. -/
def rataDie (d : Date) : Int :=
  365 * ((d.year : Int) - 1) + leapsTo (d.year - 1) +
    (daysBeforeMonth d.year d.month : Int) + (d.day : Int)

/-- Left-pad the decimal representation of `n` with zeros to width `w`. -/
def padNum (w : Nat) (n : Nat) : String :=
  let s := toString n
  String.mk (List.replicate (w - s.length) '0') ++ s

/-- ISO format `YYYY-MM-DD` of a date (Python `date.isoformat`). -/
def Date.iso (d : Date) : String :=
  padNum 4 d.year ++ "-" ++ padNum 2 d.month ++ "-" ++ padNum 2 d.day

/-- Split a character list on the dash character. -/
def splitDash : List Char → List (List Char)
  | [] => [[]]
  | c :: cs =>
    match splitDash cs with
    | [] => [[]]
    | g :: gs => if c = '-' then [] :: g :: gs else (c :: g) :: gs

/-- Decimal value of a digit list. -/
def digitsToNat (l : List Char) : Nat :=
  l.foldl (fun a c => 10 * a + (c.toNat - 48)) 0

/-- The `strptime` directive `%Y` (CPython `_strptime` pattern
`\d\d\d\d`): exactly four digits. -/
def yearGroup (l : List Char) : Bool :=
  decide (l.length = 4) && l.all Char.isDigit

/-- The `strptime` directive `%m` (CPython `_strptime` pattern
`1[0-2]|0[1-9]|[1-9]`): one or two digits whose value is 1..12; the
value form is equivalent to the alternation, which must consume the
whole group up to the next literal dash. -/
def monthGroup (l : List Char) : Bool :=
  decide (1 ≤ l.length ∧ l.length ≤ 2) && l.all Char.isDigit &&
    decide (1 ≤ digitsToNat l ∧ digitsToNat l ≤ 12)

/-- The `strptime` directive `%d` (CPython `_strptime` pattern
`3[01]|[12]\d|0[1-9]|[1-9]| [1-9]`): one or two digits whose value is
1..31, or a blank followed by one digit 1..9 (the space-padded day form
Python accepts). -/
def dayGroup (l : List Char) : Bool :=
  (decide (1 ≤ l.length ∧ l.length ≤ 2) && l.all Char.isDigit &&
    decide (1 ≤ digitsToNat l ∧ digitsToNat l ≤ 31)) ||
  (match l with
   | [' ', c] => decide ('1' ≤ c ∧ c ≤ '9')
   | _ => false)

/-- Numeric value of a day group, ignoring the optional leading blank of
a space-padded day (Python `int(" 5") == 5`). -/
def dayGroupVal (l : List Char) : Nat :=
  digitsToNat (l.dropWhile (fun c => c == ' '))

/-- Range-check a parsed year/month/day triple, modelling the
`datetime.date` constructor validation inside
`datetime.strptime(s, "%Y-%m-%d").date()`; `none` models the
`ValueError` raised on an out-of-range date (year 0, or a day beyond
the month's length). -/
def mkValidDate (y m d : Nat) : Option Date :=
  if (Date.mk y m d).validB then some ⟨y, m, d⟩ else none

/-- Parse a date string, modelling `datetime.strptime(s, "%Y-%m-%d")`:
the string must consist of exactly a `%Y` group, a dash, a `%m` group, a
dash and a `%d` group.  None of the directive patterns can match a dash
and strptime rejects unconverted trailing data, so splitting the string
on dashes and checking each group against its directive is exact.  The
`datetime.date` constructor checks then apply via `mkValidDate`; `none`
models the `ValueError` raised on any mismatch. -/
def parseDate (s : String) : Option Date :=
  match splitDash s.data with
  | [ys, ms, ds] =>
    if yearGroup ys && monthGroup ms && dayGroup ds then
      mkValidDate (digitsToNat ys) (digitsToNat ms) (dayGroupVal ds)
    else none
  | _ => none

/-- Python/JSON values as produced by `json.loads`: strings, integers,
booleans, `None`, arrays, and objects (ordered association lists, as
Python dicts preserve insertion order).  Floats are outside the modelled
value domain. -/
inductive PyVal where
  | pstr : String → PyVal
  | pint : Int → PyVal
  | pbool : Bool → PyVal
  | pnone : PyVal
  | plist : List PyVal → PyVal
  | pdict : List (String × PyVal) → PyVal

/-- Python truthiness (`bool(v)`) on the modelled values. -/
def pyTruthy : PyVal → Bool
  | PyVal.pstr s => !(s = "")
  | PyVal.pint n => !(n = 0)
  | PyVal.pbool b => b
  | PyVal.pnone => false
  | PyVal.plist l => !l.isEmpty
  | PyVal.pdict d => !d.isEmpty

/-- `isinstance(v, int)` (Python `bool` is a subclass of `int`), returning
the integer value. -/
def pyIntVal : PyVal → Option Int
  | PyVal.pint n => some n
  | PyVal.pbool b => some (if b then 1 else 0)
  | _ => none

/-- Dict lookup (`d[k]` / `d.get(k)` on a Python dict): first entry with
the given key. -/
def alGet : List (String × PyVal) → String → Option PyVal
  | [], _ => none
  | (k, v) :: es, key => if k = key then some v else alGet es key

/-- Dict update (`d[k] = v` on a Python dict): replace the value at the
first occurrence of the key, keeping its position, else append. -/
def alSet : List (String × PyVal) → String → PyVal → List (String × PyVal)
  | [], key, v => [(key, v)]
  | (k, w) :: es, key, v =>
    if k = key then (k, v) :: es else (k, w) :: alSet es key v

/-- Dict deletion (`del d[k]`): remove entries with the given key,
preserving the order of the rest. -/
def alDel (es : List (String × PyVal)) (key : String) : List (String × PyVal) :=
  es.filter (fun e => !(e.1 = key))

/-- Key membership (`k in d`). -/
def alHas (es : List (String × PyVal)) (key : String) : Bool :=
  (alGet es key).isSome

/-- First month of the quarter containing month `m`
(`((m - 1) // 3) * 3 + 1`). -/
def quarterMonth (m : Nat) : Nat :=
  ((m - 1) / 3) * 3 + 1

/-- Per-preset start/end computation of `to_absolute_range`
(`src/utils/date_normalizer.py`, lines 55-128), given the parsed
reference date; `none` covers both the explicit `return None` branches
and exceptions swallowed by the enclosing `except Exception`. -/
def rangeFor (entries : List (String × PyVal)) (preset : String) (today : Date) :
    Option (Date × Date) :=
  if preset = "yesterday" then (prevDay today).map (fun y => (y, y))
  else if preset = "today" then some (today, today)
  else if preset = "last_n_days" then
    let n := (alGet entries "n").getD (PyVal.pint 7)
    match pyIntVal n with
    | none => none
    | some k => if k < 1 then none else (subDays today (k - 1).toNat).map (fun s => (s, today))
  else if preset = "mtd" then some (⟨today.year, today.month, 1⟩, today)
  else if preset = "qtd" then some (⟨today.year, quarterMonth today.month, 1⟩, today)
  else if preset = "ytd" then some (⟨today.year, 1, 1⟩, today)
  else if preset = "prev_month" then
    (prevDay ⟨today.year, today.month, 1⟩).map (fun l => (⟨l.year, l.month, 1⟩, l))
  else if preset = "prev_quarter" then
    (prevDay ⟨today.year, quarterMonth today.month, 1⟩).map
      (fun l => (⟨l.year, quarterMonth l.month, 1⟩, l))
  else if preset = "prev_year" then
    if 2 ≤ today.year then some (⟨today.year - 1, 1, 1⟩, ⟨today.year - 1, 12, 31⟩)
    else none
  else if preset = "absolute" then
    let s := (alGet entries "start").getD PyVal.pnone
    let e := (alGet entries "end").getD PyVal.pnone
    if !pyTruthy s || !pyTruthy e then none
    else
      match s, e with
      | PyVal.pstr ss, PyVal.pstr es =>
        match parseDate ss, parseDate es with
        | some sd, some ed => some (sd, ed)
        | _, _ => none
      | _, _ => none
  else none

/-- Final formatting of `to_absolute_range` (lines 130-138): swap a
reversed range, then print as a `"start to end"` string. -/
def fmtRange (p : Date × Date) : String :=
  if dateLtB p.2 p.1 then p.2.iso ++ " to " ++ p.1.iso
  else p.1.iso ++ " to " ++ p.2.iso

/-- Shallow embedding of `to_absolute_range(time_intent, today_iso)`
(`src/utils/date_normalizer.py`).  The timezone argument only tags the
parsed reference date in the source and never changes the result, so it
is dropped.  `none` is Python `None`. -/
def to_absolute_range (time_intent : PyVal) (today_iso : String) : Option String :=
  match time_intent with
  | PyVal.pdict entries =>
    if entries.isEmpty then none
    else if !pyTruthy ((alGet entries "preset").getD PyVal.pnone) then none
    else
      match parseDate today_iso with
      | none => none
      | some today =>
        match (alGet entries "preset").getD PyVal.pnone with
        | PyVal.pstr p => (rangeFor entries p today).map fmtRange
        | _ => none
  | _ => none

/-- The clarification message returned by `ValidatorModule.forward` when
time-intent normalization fails. -/
def clarifyMsg : String :=
  "Please specify a valid timeframe (e.g., 'last 7 days', 'this month', or 'YYYY-MM-DD to YYYY-MM-DD')."

/-- The clarification object built by `ValidatorModule.forward` on
normalization failure. -/
def clarifyResult : List (String × PyVal) :=
  [("clarification_request", PyVal.pstr clarifyMsg)]

/-- The fixed filter key that `ValidatorModule.forward` writes the
normalized range to. -/
def dateFieldKey : String := "consumer_sessions.visit_day_date"

/-- Shallow embedding of the deterministic post-processing of
`ValidatorModule.forward` (`src/modules/mapper/validator_module.py`,
lines 59-100) on a parsed JSON object `q`.  `today_iso = none` models the
parameter default `today_iso=None`; an empty string is falsy, like
`None`, under the `if "time_intent" in query_json and today_iso:` test.
The result `none` models an exception that the source does not catch
(only `json.JSONDecodeError` is caught there): it occurs exactly when a
normalized range must be stored while the existing `filters` entry is not
a dict.  `ensureView` models the in-place mutation
`query_json["view"] = query_json["explore"]` applied when `view` is
missing; the rest of the processing operates on the updated dict. -/
def ensureView (q : List (String × PyVal)) : List (String × PyVal) :=
  if alHas q "view" then q else alSet q "view" ((alGet q "explore").getD PyVal.pnone)

/-- See the comment on `ensureView`: deterministic post-processing of
`ValidatorModule.forward` on a parsed JSON object. -/
def forward_post (today_iso : Option String) (q : List (String × PyVal)) :
    Option (List (String × PyVal)) :=
  if alHas q "clarification_request" || !alHas q "explore" then some q
  else
    match alGet (ensureView q) "time_intent", today_iso with
    | some ti, some t =>
      if t = "" then some (ensureView q)
      else
        match to_absolute_range ti t with
        | some r =>
          if r = "" then some clarifyResult
          else
            match alGet (ensureView q) "filters" with
            | some (PyVal.pdict f) =>
              some (alDel (alSet (ensureView q) "filters"
                (PyVal.pdict (alSet f dateFieldKey (PyVal.pstr r)))) "time_intent")
            | some _ => none
            | none =>
              some (alDel (alSet (ensureView q) "filters"
                (PyVal.pdict [(dateFieldKey, PyVal.pstr r)])) "time_intent")
        | none => some clarifyResult
    | _, _ => some (ensureView q)

/-- Result shape of `LookerQueryBuilder.validate_query`: the dimension
and measure lists of the validated query dict (all other keys are copied
through unchanged by the source). -/
structure VQuery where
  dimensions : List String
  measures : List String
deriving DecidableEq

/-- Shallow embedding of `LookerQueryBuilder.validate_query`
(`src/looker/query_builder.py`, lines 207-236).  `dimKeys`/`measKeys` are
the key lists of `self.dimensions`/`self.measures` (schema field names);
`qdims`/`qmeas` are the query's `dimensions`/`measures` lists (absent
keys behave as `[]`). -/
def validate_query (dimKeys measKeys : List String) (qdims qmeas : List String) : VQuery :=
  let d := qdims.filter (fun x => decide (x ∈ dimKeys))
  let m := qmeas.filter (fun x => decide (x ∈ measKeys))
  if d.isEmpty && m.isEmpty then
    ⟨match dimKeys with | [] => [] | k :: _ => [k],
     match measKeys with | [] => [] | k :: _ => [k]⟩
  else ⟨d, m⟩

/-- Result shape of `ExploreSchemaLoader.validate_query_fields`. -/
structure FieldValidation where
  valid : Bool
  valid_fields : List String
  invalid_fields : List String
  total_fields : Nat
deriving DecidableEq

/-- Shallow embedding of `ExploreSchemaLoader.validate_query_fields`
(`src/looker/schema_loader.py`, lines 140-166); `avail` is the list
returned by `get_available_fields()`. -/
def validate_query_fields (avail : List String) (fields : List String) : FieldValidation :=
  let vf := fields.filter (fun f => decide (f ∈ avail))
  let inf := fields.filter (fun f => decide (f ∉ avail))
  ⟨decide (inf.length = 0), vf, inf, fields.length⟩

/-- One attempt of `re.search` for a pattern `pre (\d+) post...` at the
head of `s`: the literal lead-in, a maximal non-empty digit run (the
capture group), then the literal follow text.  Since a digit cannot start
the follow text (it begins with a space), the maximal run is exactly what
the backtracking regex engine captures. -/
def tryNumAt (pre post : List Char) (s : List Char) : Option (List Char) :=
  if pre.isPrefixOf s then
    let rest := s.drop pre.length
    let ds := rest.takeWhile Char.isDigit
    if !ds.isEmpty && post.isPrefixOf (rest.drop ds.length) then some ds else none
  else none

/-- Leftmost `re.search` for `pre (\d+) post...`, scanning start
positions left to right. -/
def searchNum (pre post : List Char) : List Char → Option (List Char)
  | [] => tryNumAt pre post []
  | c :: cs =>
    match tryNumAt pre post (c :: cs) with
    | some ds => some ds
    | none => searchNum pre post cs

/-- Leftmost `re.search` for `(\d{4})`: the first position where four
consecutive digits start; the capture group is those four digits. -/
def searchYear4 : List Char → Option (List Char)
  | [] => none
  | c :: cs =>
    if ((c :: cs).take 4).length = 4 && ((c :: cs).take 4).all Char.isDigit then
      some ((c :: cs).take 4)
    else searchYear4 cs

/-- The month-name alternation of the fourth date pattern. -/
def monthNames : List (List Char) :=
  ["january".data, "february".data, "march".data, "april".data, "may".data,
   "june".data, "july".data, "august".data, "september".data, "october".data,
   "november".data, "december".data]

/-- Whether the month-name pattern matches anywhere in the text. -/
def hasMonthName : List Char → Bool
  | [] => false
  | c :: cs => monthNames.any (fun m => m.isPrefixOf (c :: cs)) || hasMonthName cs

/-- String filter map of a query (`query["filters"]`), with the same
association-list operations as Python dicts. -/
def alSetS : List (String × String) → String → String → List (String × String)
  | [], key, v => [(key, v)]
  | (k, w) :: es, key, v =>
    if k = key then (k, v) :: es else (k, w) :: alSetS es key v

/-- Lookup in a string filter map. -/
def alGetS : List (String × String) → String → Option String
  | [], _ => none
  | (k, v) :: es, key => if k = key then some v else alGetS es key

/-- Shallow embedding of `LookerQueryBuilder._add_filters`
(`src/looker/query_builder.py`, lines 113-136).  `paramFilters` models
`params.get("filters")` (replacing the whole filter dict when present);
the four date patterns are tried in source order on the lower-cased user
text, and the first matching pattern ends the scan.  A match of the
month-name pattern sets nothing: the `if/elif` chain inside the loop has
no branch for it. -/
def add_filters (paramFilters : Option (List (String × String))) (userQuery : String)
    (qfilters : List (String × String)) : List (String × String) :=
  let f0 := match paramFilters with | some f => f | none => qfilters
  let t := userQuery.data.map Char.toLower
  match searchNum "last ".data " day".data t with
  | some ds => alSetS f0 "date" ("last " ++ String.mk ds ++ " days")
  | none =>
    match searchNum "past ".data " month".data t with
    | some ds => alSetS f0 "date" ("last " ++ String.mk ds ++ " months")
    | none =>
      match searchYear4 t with
      | some ys => alSetS f0 "date" ("year " ++ String.mk ys)
      | none => f0

/-- Year of the month preceding the month of `D`. -/
def prevMonthYear (D : Date) : Nat := if D.month = 1 then D.year - 1 else D.year

/-- The month preceding the month of `D`. -/
def prevMonthMonth (D : Date) : Nat := if D.month = 1 then 12 else D.month - 1

/-- Year of the quarter preceding the quarter of `D`. -/
def prevQuarterYear (D : Date) : Nat :=
  if quarterMonth D.month = 1 then D.year - 1 else D.year

/-- First month of the quarter preceding the quarter of `D`. -/
def prevQuarterMonth (D : Date) : Nat :=
  if quarterMonth D.month = 1 then 10 else quarterMonth D.month - 3

/-- Failure condition of the preset dispatch, phrased over the parsed
reference date: the spec's listed failure cases (unrecognized preset,
bad `n`, bad absolute bounds) plus the calendar-boundary cases in which
Python date arithmetic raises (caught and turned into `None`). -/
def presetFails (entries : List (String × PyVal)) (p : String) (D : Date) : Prop :=
  if p = "yesterday" then D = ⟨1, 1, 1⟩
  else if p = "today" then False
  else if p = "last_n_days" then
    match pyIntVal ((alGet entries "n").getD (PyVal.pint 7)) with
    | none => True
    | some k => k < 1 ∨ rataDie D < k
  else if p = "mtd" then False
  else if p = "qtd" then False
  else if p = "ytd" then False
  else if p = "prev_month" then D.year = 1 ∧ D.month = 1
  else if p = "prev_quarter" then D.year = 1 ∧ D.month ≤ 3
  else if p = "prev_year" then D.year = 1
  else if p = "absolute" then
    match (alGet entries "start").getD PyVal.pnone,
          (alGet entries "end").getD PyVal.pnone with
    | PyVal.pstr ss, PyVal.pstr es =>
      ss = "" ∨ es = "" ∨ parseDate ss = none ∨ parseDate es = none
    | _, _ => True
  else True

/-- Exactly when the Time-Intent Normalizer returns null: the input is
not a dict or an empty dict, the preset is missing/falsy, the reference
date does not parse, or the chosen preset fails per `presetFails`
(unrecognized presets included). -/
def normFails (ti : PyVal) (tiso : String) : Prop :=
  match ti with
  | PyVal.pdict entries =>
    entries.isEmpty = true ∨
    pyTruthy ((alGet entries "preset").getD PyVal.pnone) = false ∨
    parseDate tiso = none ∨
    (∀ D, parseDate tiso = some D →
      match (alGet entries "preset").getD PyVal.pnone with
      | PyVal.pstr p => presetFails entries p D
      | _ => True)
  | _ => True

theorem dateLeB_of_not_lt (a b : Date) (h : dateLtB b a = false) : dateLeB a b = true := by
  simp [dateLtB] at h
  simp [dateLeB]
  omega

theorem one_le_daysInMonth (y m : Nat) (h1 : 1 ≤ m) (h2 : m ≤ 12) :
    1 ≤ daysInMonth y m := by
  unfold daysInMonth
  interval_cases m
  all_goals simp
  split <;> omega

theorem daysBeforeMonth_step (y m : Nat) (h1 : 2 ≤ m) (h2 : m ≤ 12) :
    daysBeforeMonth y m = daysBeforeMonth y (m - 1) + daysInMonth y (m - 1) := by
  unfold daysBeforeMonth daysInMonth
  interval_cases m
  all_goals cases h : isLeap y
  all_goals simp [h]

theorem leaps_step (k : Nat) (hk : 1 ≤ k) :
    leapsTo k = leapsTo (k - 1) + (if isLeap k then 1 else 0) := by
  obtain ⟨j, rfl⟩ : ∃ j, k = j + 1 := ⟨k - 1, by omega⟩
  have d1 : (j + 1) % 100 = 0 → (j + 1) % 4 = 0 := by
    intro h
    have := Nat.mod_mod_of_dvd (j + 1) (show (4 : Nat) ∣ 100 by norm_num)
    omega
  have d2 : (j + 1) % 400 = 0 → (j + 1) % 100 = 0 := by
    intro h
    have := Nat.mod_mod_of_dvd (j + 1) (show (100 : Nat) ∣ 400 by norm_num)
    omega
  have e4 : (j + 1) / 4 = j / 4 + if 4 ∣ (j + 1) then 1 else 0 := Nat.succ_div j 4
  have e100 : (j + 1) / 100 = j / 100 + if 100 ∣ (j + 1) then 1 else 0 := Nat.succ_div j 100
  have e400 : (j + 1) / 400 = j / 400 + if 400 ∣ (j + 1) then 1 else 0 := Nat.succ_div j 400
  simp only [leapsTo, isLeap, Nat.add_sub_cancel]
  rw [e4, e100, e400]
  by_cases h4 : (j + 1) % 4 = 0 <;> by_cases h100 : (j + 1) % 100 = 0 <;>
    by_cases h400 : (j + 1) % 400 = 0
  all_goals
    simp only [show ((4:Nat) ∣ (j+1)) ↔ (j+1) % 4 = 0 by omega,
               show ((100:Nat) ∣ (j+1)) ↔ (j+1) % 100 = 0 by omega,
               show ((400:Nat) ∣ (j+1)) ↔ (j+1) % 400 = 0 by omega,
               h4, h100, h400]
  all_goals try (exfalso; omega)
  all_goals norm_num
  all_goals try split_ifs
  all_goals omega

theorem daysInMonth_12 (y : Nat) : daysInMonth y 12 = 31 := by
  simp [daysInMonth]

theorem daysBeforeMonth_1 (y : Nat) : daysBeforeMonth y 1 = 0 := by
  simp [daysBeforeMonth]

theorem prevDay_spec (d : Date) (hv : d.validB = true) (d' : Date)
    (h : prevDay d = some d') :
    d'.validB = true ∧ rataDie d' + 1 = rataDie d ∧ dateLtB d' d = true := by
  simp only [Date.validB, decide_eq_true_eq] at hv
  obtain ⟨hy1, hy2, hm1, hm2, hd1, hd2⟩ := hv
  unfold prevDay at h
  split_ifs at h with h2 hm hy
  · cases h
    refine ⟨?_, ?_, ?_⟩
    · simp [Date.validB]
      refine ⟨hy1, hy2, hm1, hm2, by omega, by omega⟩
    · simp [rataDie]
      omega
    · simp [dateLtB]
      omega
  · cases h
    have hstep := daysBeforeMonth_step d.year d.month hm hm2
    have hone := one_le_daysInMonth d.year (d.month - 1) (by omega) (by omega)
    refine ⟨?_, ?_, ?_⟩
    · simp [Date.validB]
      omega
    · simp [rataDie]
      omega
    · simp [dateLtB]
      omega
  · cases h
    have hstep := leaps_step (d.year - 1) (by omega)
    have h12 : daysInMonth (d.year - 1) 12 = 31 := daysInMonth_12 _
    have hd : d.day = 1 := by omega
    have hmo : d.month = 1 := by omega
    refine ⟨?_, ?_, ?_⟩
    · simp [Date.validB, h12]
      omega
    · simp [rataDie, hd, hmo, daysBeforeMonth_1, daysBeforeMonth, daysInMonth]
      try split_ifs at hstep ⊢
      all_goals omega
    · simp [dateLtB]
      try omega

theorem prevDay_none_iff (d : Date) (hv : d.validB = true) :
    prevDay d = none ↔ d = ⟨1, 1, 1⟩ := by
  simp only [Date.validB, decide_eq_true_eq] at hv
  unfold prevDay
  constructor
  · intro h
    split_ifs at h
    obtain ⟨y, m, dd⟩ := d
    simp_all
    omega
  · intro h
    subst h
    simp

theorem rataDie_pos (d : Date) (hv : d.validB = true) : 1 ≤ rataDie d := by
  simp only [Date.validB, decide_eq_true_eq] at hv
  simp only [rataDie, leapsTo]
  omega

theorem rataDie_min : rataDie ⟨1, 1, 1⟩ = 1 := by decide

theorem dateLeB_refl (a : Date) : dateLeB a a = true := by
  simp [dateLeB]

theorem dateLeB_of_lt_of_le (a b c : Date) (h1 : dateLtB a b = true)
    (h2 : dateLeB b c = true) : dateLeB a c = true := by
  simp only [dateLtB, dateLeB, decide_eq_true_eq] at *
  omega

theorem subDays_spec (d : Date) (hv : d.validB = true) (k : Nat) (s : Date)
    (h : subDays d k = some s) :
    s.validB = true ∧ rataDie s = rataDie d - k ∧ dateLeB s d = true := by
  induction k generalizing s with
  | zero =>
    cases h
    exact ⟨hv, by simp, dateLeB_refl d⟩
  | succ k ih =>
    simp only [subDays] at h
    cases hsub : subDays d k with
    | none => rw [hsub] at h; exact absurd h (by simp)
    | some m =>
      rw [hsub] at h
      rw [show (some m).bind prevDay = prevDay m from rfl] at h
      obtain ⟨hmv, hmr, hml⟩ := ih m hsub
      obtain ⟨hsv, hsr, hsl⟩ := prevDay_spec m hmv s h
      refine ⟨hsv, by push_cast; omega, dateLeB_of_lt_of_le s m d hsl hml⟩

theorem subDays_none_iff (d : Date) (hv : d.validB = true) (k : Nat) :
    subDays d k = none ↔ rataDie d ≤ (k : Int) := by
  induction k with
  | zero =>
    have := rataDie_pos d hv
    simp [subDays]
    omega
  | succ k ih =>
    simp only [subDays]
    cases hsub : subDays d k with
    | none =>
      have hk : rataDie d ≤ (k : Int) := ih.mp hsub
      simp only [Option.none_bind, true_iff]
      push_cast
      omega
    | some m =>
      obtain ⟨hmv, hmr, hml⟩ := subDays_spec d hv k m hsub
      rw [show (some m).bind prevDay = prevDay m from rfl]
      constructor
      · intro hnone
        have hmin := (prevDay_none_iff m hmv).mp hnone
        rw [hmin] at hmr
        rw [rataDie_min] at hmr
        push_cast
        omega
      · intro hle
        cases hpd : prevDay m with
        | none => rfl
        | some w =>
          exfalso
          obtain ⟨hwv, hwr, _⟩ := prevDay_spec m hmv w hpd
          have := rataDie_pos w hwv
          push_cast at hle
          omega

theorem mkValidDate_valid (y m d : Nat) (dd : Date) (h : mkValidDate y m d = some dd) :
    dd.validB = true := by
  unfold mkValidDate at h
  split_ifs at h with h1
  cases h
  exact h1

theorem parseDate_valid (s : String) (d : Date) (h : parseDate s = some d) :
    d.validB = true := by
  unfold parseDate at h
  split at h
  · split_ifs at h with h1
    exact mkValidDate_valid _ _ _ _ h
  · exact absurd h (by simp)

theorem rangeFor_yesterday (entries : List (String × PyVal)) (D : Date) :
    rangeFor entries "yesterday" D = (prevDay D).map (fun y => (y, y)) := rfl

theorem rangeFor_today (entries : List (String × PyVal)) (D : Date) :
    rangeFor entries "today" D = some (D, D) := rfl

theorem rangeFor_last_n_days (entries : List (String × PyVal)) (D : Date) :
    rangeFor entries "last_n_days" D =
      match pyIntVal ((alGet entries "n").getD (PyVal.pint 7)) with
      | none => none
      | some k => if k < 1 then none else (subDays D (k - 1).toNat).map (fun s => (s, D)) := rfl

theorem rangeFor_mtd (entries : List (String × PyVal)) (D : Date) :
    rangeFor entries "mtd" D = some (⟨D.year, D.month, 1⟩, D) := rfl

theorem rangeFor_qtd (entries : List (String × PyVal)) (D : Date) :
    rangeFor entries "qtd" D = some (⟨D.year, quarterMonth D.month, 1⟩, D) := rfl

theorem rangeFor_ytd (entries : List (String × PyVal)) (D : Date) :
    rangeFor entries "ytd" D = some (⟨D.year, 1, 1⟩, D) := rfl

theorem rangeFor_prev_month (entries : List (String × PyVal)) (D : Date) :
    rangeFor entries "prev_month" D =
      (prevDay ⟨D.year, D.month, 1⟩).map (fun l => (⟨l.year, l.month, 1⟩, l)) := rfl

theorem rangeFor_prev_quarter (entries : List (String × PyVal)) (D : Date) :
    rangeFor entries "prev_quarter" D =
      (prevDay ⟨D.year, quarterMonth D.month, 1⟩).map
        (fun l => (⟨l.year, quarterMonth l.month, 1⟩, l)) := rfl

theorem rangeFor_prev_year (entries : List (String × PyVal)) (D : Date) :
    rangeFor entries "prev_year" D =
      (if 2 ≤ D.year then some (⟨D.year - 1, 1, 1⟩, ⟨D.year - 1, 12, 31⟩) else none) := rfl

theorem rangeFor_absolute (entries : List (String × PyVal)) (D : Date) :
    rangeFor entries "absolute" D =
      (if !pyTruthy ((alGet entries "start").getD PyVal.pnone) ||
          !pyTruthy ((alGet entries "end").getD PyVal.pnone) then none
       else
         match (alGet entries "start").getD PyVal.pnone,
               (alGet entries "end").getD PyVal.pnone with
         | PyVal.pstr ss, PyVal.pstr es =>
           match parseDate ss, parseDate es with
           | some sd, some ed => some (sd, ed)
           | _, _ => none
         | _, _ => none) := rfl

theorem rangeFor_unknown (entries : List (String × PyVal)) (p : String) (D : Date)
    (h1 : p ≠ "yesterday") (h2 : p ≠ "today") (h3 : p ≠ "last_n_days")
    (h4 : p ≠ "mtd") (h5 : p ≠ "qtd") (h6 : p ≠ "ytd") (h7 : p ≠ "prev_month")
    (h8 : p ≠ "prev_quarter") (h9 : p ≠ "prev_year") (h10 : p ≠ "absolute") :
    rangeFor entries p D = none := by
  unfold rangeFor
  rw [if_neg h1, if_neg h2, if_neg h3, if_neg h4, if_neg h5, if_neg h6,
      if_neg h7, if_neg h8, if_neg h9, if_neg h10]

theorem mk1_valid (y m : Nat) (hy1 : 1 ≤ y) (hy2 : y ≤ 9999) (hm1 : 1 ≤ m)
    (hm2 : m ≤ 12) : (Date.mk y m 1).validB = true := by
  have := one_le_daysInMonth y m hm1 hm2
  simp [Date.validB]
  omega

theorem quarterMonth_bounds (m : Nat) (h1 : 1 ≤ m) (h2 : m ≤ 12) :
    1 ≤ quarterMonth m ∧ quarterMonth m ≤ m := by
  simp only [quarterMonth]
  omega

theorem validB_bounds (d : Date) (hv : d.validB = true) :
    1 ≤ d.year ∧ d.year ≤ 9999 ∧ 1 ≤ d.month ∧ d.month ≤ 12 ∧ 1 ≤ d.day ∧
      d.day ≤ daysInMonth d.year d.month := by
  simpa [Date.validB] using hv

theorem rangeFor_valid (entries : List (String × PyVal)) (p : String) (D : Date)
    (hD : D.validB = true) (s e : Date)
    (h : rangeFor entries p D = some (s, e)) :
    s.validB = true ∧ e.validB = true := by
  obtain ⟨hy1, hy2, hm1, hm2, hd1, hd2⟩ := validB_bounds D hD
  by_cases c1 : p = "yesterday"
  · subst c1
    rw [rangeFor_yesterday] at h
    cases hp : prevDay D with
    | none => rw [hp] at h; exact absurd h (by simp)
    | some y =>
      rw [hp] at h
      simp only [Option.map_some', Option.some.injEq, Prod.mk.injEq] at h
      obtain ⟨rfl, rfl⟩ := h
      obtain ⟨hv, _, _⟩ := prevDay_spec D hD y hp
      exact ⟨hv, hv⟩
  by_cases c2 : p = "today"
  · subst c2
    rw [rangeFor_today] at h
    cases h
    exact ⟨hD, hD⟩
  by_cases c3 : p = "last_n_days"
  · subst c3
    rw [rangeFor_last_n_days] at h
    cases hn : pyIntVal ((alGet entries "n").getD (PyVal.pint 7)) with
    | none => rw [hn] at h; exact absurd h (by simp)
    | some k =>
      rw [hn] at h
      simp only at h
      split_ifs at h with hk
      cases hs : subDays D (k - 1).toNat with
      | none => rw [hs] at h; exact absurd h (by simp)
      | some st =>
        rw [hs] at h
        simp only [Option.map_some', Option.some.injEq, Prod.mk.injEq] at h
        obtain ⟨rfl, rfl⟩ := h
        obtain ⟨hv, _, _⟩ := subDays_spec D hD _ st hs
        exact ⟨hv, hD⟩
  by_cases c4 : p = "mtd"
  · subst c4
    rw [rangeFor_mtd] at h
    cases h
    exact ⟨mk1_valid _ _ hy1 hy2 hm1 hm2, hD⟩
  by_cases c5 : p = "qtd"
  · subst c5
    rw [rangeFor_qtd] at h
    cases h
    obtain ⟨hq1, hq2⟩ := quarterMonth_bounds D.month hm1 hm2
    exact ⟨mk1_valid _ _ hy1 hy2 hq1 (by omega), hD⟩
  by_cases c6 : p = "ytd"
  · subst c6
    rw [rangeFor_ytd] at h
    cases h
    exact ⟨mk1_valid _ _ hy1 hy2 (by omega) (by omega), hD⟩
  by_cases c7 : p = "prev_month"
  · subst c7
    rw [rangeFor_prev_month] at h
    have hfv : (Date.mk D.year D.month 1).validB = true := mk1_valid _ _ hy1 hy2 hm1 hm2
    cases hp : prevDay ⟨D.year, D.month, 1⟩ with
    | none => rw [hp] at h; exact absurd h (by simp)
    | some l =>
      rw [hp] at h
      simp only [Option.map_some', Option.some.injEq, Prod.mk.injEq] at h
      obtain ⟨rfl, rfl⟩ := h
      obtain ⟨hlv, _, _⟩ := prevDay_spec _ hfv l hp
      obtain ⟨ly1, ly2, lm1, lm2, _, _⟩ := validB_bounds l hlv
      exact ⟨mk1_valid _ _ ly1 ly2 lm1 lm2, hlv⟩
  by_cases c8 : p = "prev_quarter"
  · subst c8
    rw [rangeFor_prev_quarter] at h
    obtain ⟨hq1, hq2⟩ := quarterMonth_bounds D.month hm1 hm2
    have hfv : (Date.mk D.year (quarterMonth D.month) 1).validB = true :=
      mk1_valid _ _ hy1 hy2 hq1 (by omega)
    cases hp : prevDay ⟨D.year, quarterMonth D.month, 1⟩ with
    | none => rw [hp] at h; exact absurd h (by simp)
    | some l =>
      rw [hp] at h
      simp only [Option.map_some', Option.some.injEq, Prod.mk.injEq] at h
      obtain ⟨rfl, rfl⟩ := h
      obtain ⟨hlv, _, _⟩ := prevDay_spec _ hfv l hp
      obtain ⟨ly1, ly2, lm1, lm2, _, _⟩ := validB_bounds l hlv
      obtain ⟨hlq1, hlq2⟩ := quarterMonth_bounds l.month lm1 lm2
      exact ⟨mk1_valid _ _ ly1 ly2 hlq1 (by omega), hlv⟩
  by_cases c9 : p = "prev_year"
  · subst c9
    rw [rangeFor_prev_year] at h
    split_ifs at h with hy
    cases h
    constructor
    · exact mk1_valid _ _ (by omega) (by omega) (by omega) (by omega)
    · have h12 : daysInMonth (D.year - 1) 12 = 31 := daysInMonth_12 _
      simp [Date.validB, h12]
      omega
  by_cases c10 : p = "absolute"
  · subst c10
    rw [rangeFor_absolute] at h
    split_ifs at h with ht
    cases hsv : (alGet entries "start").getD PyVal.pnone with
    | pstr ss =>
      cases hev : (alGet entries "end").getD PyVal.pnone with
      | pstr es =>
        rw [hsv, hev] at h
        simp only at h
        cases hps : parseDate ss with
        | none => rw [hps] at h; exact absurd h (by simp)
        | some sd =>
          cases hpe : parseDate es with
          | none => rw [hps, hpe] at h; exact absurd h (by simp)
          | some ed =>
            rw [hps, hpe] at h
            simp only at h
            cases h
            exact ⟨parseDate_valid _ _ hps, parseDate_valid _ _ hpe⟩
      | pint n => rw [hsv, hev] at h; exact absurd h (by simp)
      | pbool b => rw [hsv, hev] at h; exact absurd h (by simp)
      | pnone => rw [hsv, hev] at h; exact absurd h (by simp)
      | plist l => rw [hsv, hev] at h; exact absurd h (by simp)
      | pdict dd => rw [hsv, hev] at h; exact absurd h (by simp)
    | pint n => rw [hsv] at h; exact absurd h (by simp)
    | pbool b => rw [hsv] at h; exact absurd h (by simp)
    | pnone => rw [hsv] at h; exact absurd h (by simp)
    | plist l => rw [hsv] at h; exact absurd h (by simp)
    | pdict dd => rw [hsv] at h; exact absurd h (by simp)
  rw [rangeFor_unknown entries p D c1 c2 c3 c4 c5 c6 c7 c8 c9 c10] at h
  exact absurd h (by simp)

theorem dateLeB_of_ltB (a b : Date) (h : dateLtB a b = true) : dateLeB a b = true := by
  simp only [dateLtB, dateLeB, decide_eq_true_eq] at *
  omega

theorem fmtRange_shape (s e : Date) (hs : s.validB = true) (he : e.validB = true) :
    ∃ a b : Date, a.validB = true ∧ b.validB = true ∧ dateLeB a b = true ∧
      fmtRange (s, e) = a.iso ++ " to " ++ b.iso := by
  unfold fmtRange
  by_cases hlt : dateLtB e s = true
  · rw [if_pos hlt]
    exact ⟨e, s, he, hs, dateLeB_of_ltB e s hlt, rfl⟩
  · rw [if_neg hlt]
    exact ⟨s, e, hs, he, dateLeB_of_not_lt s e (by simpa using hlt), rfl⟩

theorem to_absolute_range_shape (ti : PyVal) (tiso r : String)
    (h : to_absolute_range ti tiso = some r) :
    ∃ a b : Date, a.validB = true ∧ b.validB = true ∧ dateLeB a b = true ∧
      r = a.iso ++ " to " ++ b.iso := by
  cases ti with
  | pdict entries =>
    simp only [to_absolute_range] at h
    split_ifs at h with he hp
    cases hpd : parseDate tiso with
    | none => rw [hpd] at h; exact absurd h (by simp)
    | some D =>
      rw [hpd] at h
      have hDv := parseDate_valid _ _ hpd
      cases hpre : (alGet entries "preset").getD PyVal.pnone with
      | pstr p =>
        rw [hpre] at h
        simp only at h
        cases hr : rangeFor entries p D with
        | none => rw [hr] at h; exact absurd h (by simp)
        | some se =>
          rw [hr] at h
          simp only [Option.map_some', Option.some.injEq] at h
          obtain ⟨hsv, hev⟩ := rangeFor_valid entries p D hDv se.1 se.2 (by rw [hr])
          obtain ⟨a, b, hav, hbv, hab, hfmt⟩ := fmtRange_shape se.1 se.2 hsv hev
          exact ⟨a, b, hav, hbv, hab, by rw [← h, ← hfmt]⟩
      | pint n => rw [hpre] at h; exact absurd h (by simp)
      | pbool b => rw [hpre] at h; exact absurd h (by simp)
      | pnone => rw [hpre] at h; exact absurd h (by simp)
      | plist l => rw [hpre] at h; exact absurd h (by simp)
      | pdict dd => rw [hpre] at h; exact absurd h (by simp)
  | pstr s => exact absurd h (by simp [to_absolute_range])
  | pint n => exact absurd h (by simp [to_absolute_range])
  | pbool b => exact absurd h (by simp [to_absolute_range])
  | pnone => exact absurd h (by simp [to_absolute_range])
  | plist l => exact absurd h (by simp [to_absolute_range])

theorem range_string_ne_empty (a b : Date) : (a.iso ++ " to " ++ b.iso) ≠ "" := by
  intro hcon
  have hl := congrArg String.length hcon
  simp only [String.length_append] at hl
  have h4 : String.length " to " = 4 := by decide
  have h0 : String.length "" = 0 := by decide
  omega

theorem to_absolute_range_ne_empty (ti : PyVal) (tiso r : String)
    (h : to_absolute_range ti tiso = some r) : r ≠ "" := by
  obtain ⟨a, b, _, _, _, hfmt⟩ := to_absolute_range_shape ti tiso r h
  rw [hfmt]
  exact range_string_ne_empty a b

theorem alGet_set_self (d : List (String × PyVal)) (k : String) (v : PyVal) :
    alGet (alSet d k v) k = some v := by
  induction d with
  | nil => simp [alSet, alGet]
  | cons e es ih =>
    obtain ⟨ek, ev⟩ := e
    by_cases h : ek = k
    · simp [alSet, alGet, h]
    · simp [alSet, alGet, h, ih]

theorem alGet_set_ne (d : List (String × PyVal)) (k k' : String) (v : PyVal)
    (h : k ≠ k') : alGet (alSet d k v) k' = alGet d k' := by
  induction d with
  | nil => simp [alSet, alGet, h]
  | cons e es ih =>
    obtain ⟨ek, ev⟩ := e
    by_cases he : ek = k
    · simp [alSet, alGet, he, h]
    · by_cases he' : ek = k'
      · subst he'
        rw [alSet.eq_def]
        simp only [if_neg he]
        simp [alGet]
      · simp [alSet, alGet, he, he', ih]

theorem alGet_del_self (d : List (String × PyVal)) (k : String) :
    alGet (alDel d k) k = none := by
  induction d with
  | nil => simp [alDel, alGet]
  | cons e es ih =>
    obtain ⟨ek, ev⟩ := e
    by_cases h : ek = k
    · simpa [alDel, alGet, h] using ih
    · simpa [alDel, alGet, h] using ih

theorem alGet_del_ne (d : List (String × PyVal)) (k k' : String) (h : k ≠ k') :
    alGet (alDel d k) k' = alGet d k' := by
  induction d with
  | nil => simp [alDel, alGet]
  | cons e es ih =>
    obtain ⟨ek, ev⟩ := e
    by_cases he : ek = k
    · have hne : ¬(ek = k') := by rw [he]; exact h
      rw [alDel, List.filter_cons_of_neg (by simp [he])]
      rw [show alGet ((ek, ev) :: es) k' = alGet es k' by simp [alGet, hne]]
      exact ih
    · rw [alDel, List.filter_cons_of_pos (by simp [he])]
      by_cases he' : ek = k'
      · simp [alGet, he']
      · simp only [alGet, if_neg he']
        exact ih

theorem alSet_ne_nil (d : List (String × PyVal)) (k : String) (v : PyVal) :
    alSet d k v ≠ [] := by
  cases d with
  | nil => simp [alSet]
  | cons e es =>
    obtain ⟨ek, ev⟩ := e
    by_cases h : ek = k <;> simp [alSet, h]

theorem ensureView_get_ne (q : List (String × PyVal)) (k : String) (h : k ≠ "view") :
    alGet (ensureView q) k = alGet q k := by
  unfold ensureView
  split_ifs with hv
  · rfl
  · exact alGet_set_ne q "view" k _ (fun hc => h hc.symm)

theorem ensureView_has_view (q : List (String × PyVal)) :
    alHas (ensureView q) "view" = true := by
  unfold ensureView alHas
  split_ifs with hv
  · exact hv
  · rw [alGet_set_self]
    rfl

theorem ensureView_of_has (q : List (String × PyVal)) (h : alHas q "view" = true) :
    ensureView q = q := by
  unfold ensureView
  rw [if_pos h]

theorem ensureView_idem (q : List (String × PyVal)) :
    ensureView (ensureView q) = ensureView q :=
  ensureView_of_has _ (ensureView_has_view q)

theorem alHas_eq_of_get_eq (q1 q2 : List (String × PyVal)) (k : String)
    (h : alGet q1 k = alGet q2 k) : alHas q1 k = alHas q2 k := by
  unfold alHas
  rw [h]

theorem clarifyResult_has : alHas clarifyResult "clarification_request" = true := rfl

/-- The result of the successful-normalization branch: its gets agree with
the input outside the `filters` and `time_intent` keys. -/
theorem store_result_get_ne (Q : List (String × PyVal)) (X : PyVal) (k : String)
    (h1 : k ≠ "filters") (h2 : k ≠ "time_intent") :
    alGet (alDel (alSet Q "filters" X) "time_intent") k = alGet Q k := by
  rw [alGet_del_ne _ _ _ (fun hc => h2 hc.symm), alGet_set_ne _ _ _ _ (fun hc => h1 hc.symm)]

theorem forward_post_idem_aux (t : Option String) (q q' : List (String × PyVal))
    (h : forward_post t q = some q') : forward_post t q' = some q' := by
  unfold forward_post at h
  by_cases hg : (alHas q "clarification_request" || !alHas q "explore") = true
  · rw [if_pos hg] at h
    cases h
    unfold forward_post
    rw [if_pos hg]
  · rw [if_neg hg] at h
    have hcl : alHas q "clarification_request" = false := by
      cases hc : alHas q "clarification_request"
      · rfl
      · exfalso; apply hg; rw [hc]; simp
    have hex : alHas q "explore" = true := by
      cases he : alHas q "explore"
      · exfalso; apply hg; rw [he]; simp
      · rfl
    have hQcl : alGet (ensureView q) "clarification_request" = alGet q "clarification_request" :=
      ensureView_get_ne q _ (by decide)
    have hQex : alGet (ensureView q) "explore" = alGet q "explore" :=
      ensureView_get_ne q _ (by decide)
    have hQclh : alHas (ensureView q) "clarification_request" = false := by
      rw [alHas_eq_of_get_eq _ _ _ hQcl]; exact hcl
    have hQexh : alHas (ensureView q) "explore" = true := by
      rw [alHas_eq_of_get_eq _ _ _ hQex]; exact hex
    have hQguard : (alHas (ensureView q) "clarification_request" ||
        !alHas (ensureView q) "explore") = false := by
      rw [hQclh, hQexh]; rfl
    have hclres : forward_post t clarifyResult = some clarifyResult := by
      unfold forward_post
      rw [if_pos (by rw [clarifyResult_has]; rfl)]
    cases hti : alGet (ensureView q) "time_intent" with
    | none =>
      cases t with
      | none =>
        rw [hti] at h
        simp only at h
        cases h
        unfold forward_post
        rw [if_neg (by rw [hQguard]; simp)]
        rw [ensureView_idem, hti]
      | some tt =>
        rw [hti] at h
        simp only at h
        cases h
        unfold forward_post
        rw [if_neg (by rw [hQguard]; simp)]
        rw [ensureView_idem, hti]
    | some ti =>
      cases t with
      | none =>
        rw [hti] at h
        simp only at h
        cases h
        unfold forward_post
        rw [if_neg (by rw [hQguard]; simp)]
        rw [ensureView_idem, hti]
      | some tt =>
        rw [hti] at h
        simp only at h
        by_cases htt : tt = ""
        · subst htt
          rw [if_pos rfl] at h
          cases h
          unfold forward_post
          rw [if_neg (by rw [hQguard]; simp)]
          rw [ensureView_idem, hti]
          rfl
        · rw [if_neg htt] at h
          cases hr : to_absolute_range ti tt with
          | none =>
            rw [hr] at h
            simp only at h
            cases h
            exact hclres
          | some r =>
            rw [hr] at h
            simp only at h
            by_cases hre : r = ""
            · rw [if_pos hre] at h
              cases h
              exact hclres
            · rw [if_neg hre] at h
              cases hf : alGet (ensureView q) "filters" with
              | none =>
                rw [hf] at h
                simp only at h
                cases h
                have hres := store_result_get_ne (ensureView q)
                  (PyVal.pdict [(dateFieldKey, PyVal.pstr r)])
                unfold forward_post
                rw [if_neg (by
                  rw [alHas_eq_of_get_eq _ _ _ (hres "clarification_request" (by decide) (by decide)), hQclh,
                      alHas_eq_of_get_eq _ _ _ (hres "explore" (by decide) (by decide)), hQexh]
                  simp)]
                rw [ensureView_of_has _ (by
                  rw [alHas_eq_of_get_eq _ _ _ (hres "view" (by decide) (by decide))]
                  exact ensureView_has_view q)]
                rw [alGet_del_self]
              | some fv =>
                cases fv with
                | pdict f =>
                  rw [hf] at h
                  simp only at h
                  cases h
                  have hres := store_result_get_ne (ensureView q)
                    (PyVal.pdict (alSet f dateFieldKey (PyVal.pstr r)))
                  unfold forward_post
                  rw [if_neg (by
                    rw [alHas_eq_of_get_eq _ _ _ (hres "clarification_request" (by decide) (by decide)), hQclh,
                        alHas_eq_of_get_eq _ _ _ (hres "explore" (by decide) (by decide)), hQexh]
                    simp)]
                  rw [ensureView_of_has _ (by
                    rw [alHas_eq_of_get_eq _ _ _ (hres "view" (by decide) (by decide))]
                    exact ensureView_has_view q)]
                  rw [alGet_del_self]
                | pstr s => rw [hf] at h; exact absurd h (by simp)
                | pint n => rw [hf] at h; exact absurd h (by simp)
                | pbool b => rw [hf] at h; exact absurd h (by simp)
                | pnone => rw [hf] at h; exact absurd h (by simp)
                | plist l => rw [hf] at h; exact absurd h (by simp)

/-- Successful time-intent normalization in `forward_post`: the range is
stored under `dateFieldKey` inside `filters`, and `time_intent` is
removed. -/
theorem forward_post_store (q : List (String × PyVal)) (t : String) (ti : PyVal) (r : String)
    (hcl : alHas q "clarification_request" = false)
    (hex : alHas q "explore" = true)
    (ht : t ≠ "")
    (hfil : alGet q "filters" = none ∨ ∃ f, alGet q "filters" = some (PyVal.pdict f))
    (hti : alGet q "time_intent" = some ti)
    (hr : to_absolute_range ti t = some r) :
    ∃ q', forward_post (some t) q = some q' ∧
      (∃ f', alGet q' "filters" = some (PyVal.pdict f') ∧
        alGet f' dateFieldKey = some (PyVal.pstr r)) ∧
      alGet q' "time_intent" = none := by
  have hguard : (alHas q "clarification_request" || !alHas q "explore") = false := by
    rw [hcl, hex]; rfl
  have hQti : alGet (ensureView q) "time_intent" = alGet q "time_intent" :=
    ensureView_get_ne q _ (by decide)
  have hQfil : alGet (ensureView q) "filters" = alGet q "filters" :=
    ensureView_get_ne q _ (by decide)
  have hre : r ≠ "" := to_absolute_range_ne_empty ti t r hr
  unfold forward_post
  rw [if_neg (by rw [hguard]; simp)]
  rw [hQti, hti]
  simp only
  rw [if_neg ht, hr]
  simp only
  rw [if_neg hre, hQfil]
  rcases hfil with hnone | ⟨f, hf⟩
  · rw [hnone]
    refine ⟨_, rfl, ⟨[(dateFieldKey, PyVal.pstr r)], ?_, ?_⟩, ?_⟩
    · rw [alGet_del_ne _ _ _ (by decide), alGet_set_self]
    · simp [alGet]
    · rw [alGet_del_self]
  · rw [hf]
    simp only
    refine ⟨_, rfl, ⟨alSet f dateFieldKey (PyVal.pstr r), ?_, ?_⟩, ?_⟩
    · rw [alGet_del_ne _ _ _ (by decide), alGet_set_self]
    · rw [alGet_set_self]
    · rw [alGet_del_self]

/-- Normalization failure in `forward_post`: the whole result is replaced
by the clarification object. -/
theorem forward_post_clarify (q : List (String × PyVal)) (t : String) (ti : PyVal)
    (hcl : alHas q "clarification_request" = false)
    (hex : alHas q "explore" = true)
    (ht : t ≠ "")
    (hti : alGet q "time_intent" = some ti)
    (hr : to_absolute_range ti t = none) :
    forward_post (some t) q = some clarifyResult := by
  have hguard : (alHas q "clarification_request" || !alHas q "explore") = false := by
    rw [hcl, hex]; rfl
  have hQti : alGet (ensureView q) "time_intent" = alGet q "time_intent" :=
    ensureView_get_ne q _ (by decide)
  unfold forward_post
  rw [if_neg (by rw [hguard]; simp)]
  rw [hQti, hti]
  simp only
  rw [if_neg ht, hr]

/-- Whatever `forward_post` returns with a reference date on a draft that
has `explore`, is either a clarification object or carries no
`time_intent`. -/
theorem forward_post_no_time_intent (q : List (String × PyVal)) (t : String)
    (q' : List (String × PyVal))
    (hcl : alHas q "clarification_request" = false)
    (hex : alHas q "explore" = true)
    (ht : t ≠ "")
    (h : forward_post (some t) q = some q')
    (hq' : alHas q' "clarification_request" = false) :
    alGet q' "time_intent" = none := by
  have hguard : (alHas q "clarification_request" || !alHas q "explore") = false := by
    rw [hcl, hex]; rfl
  have hQti : alGet (ensureView q) "time_intent" = alGet q "time_intent" :=
    ensureView_get_ne q _ (by decide)
  unfold forward_post at h
  rw [if_neg (by rw [hguard]; simp)] at h
  cases hti : alGet (ensureView q) "time_intent" with
  | none =>
    rw [hti] at h
    simp only at h
    cases h
    exact hti
  | some ti =>
    rw [hti] at h
    simp only at h
    rw [if_neg ht] at h
    cases hr : to_absolute_range ti t with
    | none =>
      rw [hr] at h
      simp only at h
      cases h
      exact absurd hq' (by rw [clarifyResult_has]; simp)
    | some r =>
      rw [hr] at h
      simp only at h
      by_cases hre : r = ""
      · rw [if_pos hre] at h
        cases h
        exact absurd hq' (by rw [clarifyResult_has]; simp)
      · rw [if_neg hre] at h
        cases hf : alGet (ensureView q) "filters" with
        | none =>
          rw [hf] at h
          simp only at h
          cases h
          rw [alGet_del_self]
        | some fv =>
          cases fv with
          | pdict f =>
            rw [hf] at h
            simp only at h
            cases h
            rw [alGet_del_self]
          | pstr s => rw [hf] at h; exact absurd h (by simp)
          | pint n => rw [hf] at h; exact absurd h (by simp)
          | pbool b => rw [hf] at h; exact absurd h (by simp)
          | pnone => rw [hf] at h; exact absurd h (by simp)
          | plist l => rw [hf] at h; exact absurd h (by simp)

theorem rangeFor_congr (e1 e2 : List (String × PyVal)) (p : String) (D : Date)
    (hn : alGet e1 "n" = alGet e2 "n")
    (hs : alGet e1 "start" = alGet e2 "start")
    (he : alGet e1 "end" = alGet e2 "end") :
    rangeFor e1 p D = rangeFor e2 p D := by
  by_cases c1 : p = "yesterday"
  · subst c1; rw [rangeFor_yesterday, rangeFor_yesterday]
  by_cases c2 : p = "today"
  · subst c2; rw [rangeFor_today, rangeFor_today]
  by_cases c3 : p = "last_n_days"
  · subst c3; rw [rangeFor_last_n_days, rangeFor_last_n_days, hn]
  by_cases c4 : p = "mtd"
  · subst c4; rw [rangeFor_mtd, rangeFor_mtd]
  by_cases c5 : p = "qtd"
  · subst c5; rw [rangeFor_qtd, rangeFor_qtd]
  by_cases c6 : p = "ytd"
  · subst c6; rw [rangeFor_ytd, rangeFor_ytd]
  by_cases c7 : p = "prev_month"
  · subst c7; rw [rangeFor_prev_month, rangeFor_prev_month]
  by_cases c8 : p = "prev_quarter"
  · subst c8; rw [rangeFor_prev_quarter, rangeFor_prev_quarter]
  by_cases c9 : p = "prev_year"
  · subst c9; rw [rangeFor_prev_year, rangeFor_prev_year]
  by_cases c10 : p = "absolute"
  · subst c10; rw [rangeFor_absolute, rangeFor_absolute, hs, he]
  rw [rangeFor_unknown e1 p D c1 c2 c3 c4 c5 c6 c7 c8 c9 c10,
      rangeFor_unknown e2 p D c1 c2 c3 c4 c5 c6 c7 c8 c9 c10]

/-- Setting the `"field"` key of a time-intent dict never changes the
normalizer's result: the target-field name inside `time_intent` is
ignored by `to_absolute_range`. -/
theorem to_absolute_range_set_field (d : List (String × PyVal)) (v : PyVal) (tiso : String) :
    to_absolute_range (PyVal.pdict (alSet d "field" v)) tiso =
      to_absolute_range (PyVal.pdict d) tiso := by
  by_cases hd : d = []
  · subst hd
    rfl
  · have h1 : (alSet d "field" v).isEmpty = false := by
      cases hsv : alSet d "field" v with
      | nil => exact absurd hsv (alSet_ne_nil d "field" v)
      | cons a l => rfl
    have h2 : d.isEmpty = false := by
      cases d with
      | nil => exact absurd rfl hd
      | cons a l => rfl
    have hpre : alGet (alSet d "field" v) "preset" = alGet d "preset" :=
      alGet_set_ne d "field" "preset" v (by decide)
    simp only [to_absolute_range, h1, h2, hpre, Bool.false_eq_true, if_false]
    cases hpd : parseDate tiso with
    | none => rfl
    | some D =>
      cases hp : (alGet d "preset").getD PyVal.pnone with
      | pstr p =>
        simp only
        rw [rangeFor_congr (alSet d "field" v) d p D
              (alGet_set_ne d "field" "n" v (by decide))
              (alGet_set_ne d "field" "start" v (by decide))
              (alGet_set_ne d "field" "end" v (by decide))]
      | pint n => rfl
      | pbool b => rfl
      | pnone => rfl
      | plist l => rfl
      | pdict dd => rfl

theorem dateLtB_eq_false_of_le (a b : Date) (h : dateLeB a b = true) :
    dateLtB b a = false := by
  simp only [dateLeB, decide_eq_true_eq] at h
  simp only [dateLtB, decide_eq_false_iff_not]
  omega

/-- Dispatch form of the normalizer on a dict with a non-empty string
preset and a parseable reference date. -/
theorem to_absolute_range_dispatch (entries : List (String × PyVal)) (tiso : String)
    (p : String) (D : Date)
    (hpre : (alGet entries "preset").getD PyVal.pnone = PyVal.pstr p)
    (hp : p ≠ "")
    (hD : parseDate tiso = some D) :
    to_absolute_range (PyVal.pdict entries) tiso = (rangeFor entries p D).map fmtRange := by
  have hne : entries.isEmpty = false := by
    cases entries with
    | nil => simp [alGet] at hpre
    | cons a l => rfl
  simp only [to_absolute_range, hne, Bool.false_eq_true, if_false, hpre]
  rw [if_neg (by simp [pyTruthy, hp])]
  rw [hD]

theorem last_n_days_range_aux (entries : List (String × PyVal)) (tiso : String)
    (D S : Date) (n : Int)
    (hpre : (alGet entries "preset").getD PyVal.pnone = PyVal.pstr "last_n_days")
    (hn' : alGet entries "n" = some (PyVal.pint n))
    (hD : parseDate tiso = some D)
    (hn : 1 ≤ n)
    (hS : subDays D (n - 1).toNat = some S) :
    to_absolute_range (PyVal.pdict entries) tiso = some (S.iso ++ " to " ++ D.iso) ∧
    rataDie D - rataDie S = n - 1 := by
  have hDv := parseDate_valid _ _ hD
  obtain ⟨hSv, hSr, hSle⟩ := subDays_spec D hDv _ S hS
  constructor
  · rw [to_absolute_range_dispatch entries tiso "last_n_days" D hpre (by decide) hD]
    rw [rangeFor_last_n_days, hn']
    rw [show (some (PyVal.pint n)).getD (PyVal.pint 7) = PyVal.pint n from rfl]
    simp only [pyIntVal]
    rw [if_neg (by omega)]
    rw [hS]
    simp only [Option.map_some']
    unfold fmtRange
    rw [if_neg (by rw [dateLtB_eq_false_of_le S D hSle]; simp)]
  · have hc : ((n - 1).toNat : Int) = n - 1 := Int.toNat_of_nonneg (by omega)
    omega

theorem prev_month_range_aux (entries : List (String × PyVal)) (tiso : String) (D : Date)
    (hpre : (alGet entries "preset").getD PyVal.pnone = PyVal.pstr "prev_month")
    (hD : parseDate tiso = some D)
    (hok : 2 ≤ D.month ∨ 2 ≤ D.year) :
    to_absolute_range (PyVal.pdict entries) tiso =
      some ((Date.mk (prevMonthYear D) (prevMonthMonth D) 1).iso ++ " to " ++
        (Date.mk (prevMonthYear D) (prevMonthMonth D)
          (daysInMonth (prevMonthYear D) (prevMonthMonth D))).iso) := by
  obtain ⟨hy1, hy2, hm1, hm2, _, _⟩ := validB_bounds D (parseDate_valid _ _ hD)
  rw [to_absolute_range_dispatch entries tiso "prev_month" D hpre (by decide) hD]
  rw [rangeFor_prev_month]
  by_cases hm : D.month = 1
  · have hyy : 2 ≤ D.year := by omega
    have hpd : prevDay ⟨D.year, D.month, 1⟩ = some ⟨D.year - 1, 12, 31⟩ := by
      simp [prevDay, hm]
      try omega
    rw [hpd]
    simp only [Option.map_some', Option.some.injEq]
    unfold fmtRange
    rw [if_neg (by simp [dateLtB])]
    simp only [prevMonthYear, prevMonthMonth, if_pos hm]
    rw [daysInMonth_12]
  · have hm2' : 2 ≤ D.month := by omega
    have hpd : prevDay ⟨D.year, D.month, 1⟩ =
        some ⟨D.year, D.month - 1, daysInMonth D.year (D.month - 1)⟩ := by
      simp [prevDay, hm2']
      try omega
    rw [hpd]
    simp only [Option.map_some', Option.some.injEq]
    have hone := one_le_daysInMonth D.year (D.month - 1) (by omega) (by omega)
    unfold fmtRange
    rw [if_neg (by simp [dateLtB]; omega)]
    simp only [prevMonthYear, prevMonthMonth, if_neg hm]

theorem prev_quarter_range_aux (entries : List (String × PyVal)) (tiso : String) (D : Date)
    (hpre : (alGet entries "preset").getD PyVal.pnone = PyVal.pstr "prev_quarter")
    (hD : parseDate tiso = some D)
    (hok : 4 ≤ quarterMonth D.month ∨ 2 ≤ D.year) :
    to_absolute_range (PyVal.pdict entries) tiso =
      some ((Date.mk (prevQuarterYear D) (prevQuarterMonth D) 1).iso ++ " to " ++
        (Date.mk (prevQuarterYear D) (prevQuarterMonth D + 2)
          (daysInMonth (prevQuarterYear D) (prevQuarterMonth D + 2))).iso) := by
  obtain ⟨hy1, hy2, hm1, hm2, _, _⟩ := validB_bounds D (parseDate_valid _ _ hD)
  have hqcases : quarterMonth D.month = 1 ∨ 4 ≤ quarterMonth D.month := by
    simp only [quarterMonth]
    omega
  have hq12 : quarterMonth D.month ≤ 10 := by
    simp only [quarterMonth]
    omega
  rw [to_absolute_range_dispatch entries tiso "prev_quarter" D hpre (by decide) hD]
  rw [rangeFor_prev_quarter]
  by_cases hq : quarterMonth D.month = 1
  · have hyy : 2 ≤ D.year := by
      rcases hok with h | h
      · omega
      · exact h
    have hpd : prevDay ⟨D.year, quarterMonth D.month, 1⟩ = some ⟨D.year - 1, 12, 31⟩ := by
      simp [prevDay, hq]
      omega
    rw [hpd]
    simp only [Option.map_some', Option.some.injEq]
    have h1012 : quarterMonth 12 = 10 := by simp [quarterMonth]
    unfold fmtRange
    rw [if_neg (by simp [dateLtB, h1012]; try omega)]
    simp only [prevQuarterYear, prevQuarterMonth, if_pos hq, h1012]
    rw [daysInMonth_12]
  · have hq4 : 4 ≤ quarterMonth D.month := by
      rcases hqcases with h | h
      · exact absurd h hq
      · exact h
    have h2q : 2 ≤ quarterMonth D.month := by omega
    have hpd : prevDay ⟨D.year, quarterMonth D.month, 1⟩ =
        some ⟨D.year, quarterMonth D.month - 1,
          daysInMonth D.year (quarterMonth D.month - 1)⟩ := by
      simp [prevDay, h2q]
      try omega
    rw [hpd]
    simp only [Option.map_some', Option.some.injEq]
    have hqprev : quarterMonth (quarterMonth D.month - 1) = quarterMonth D.month - 3 := by
      have hq4' := hq4
      simp only [quarterMonth] at hq4' ⊢
      omega
    have hone := one_le_daysInMonth D.year (quarterMonth D.month - 1) (by omega) (by omega)
    unfold fmtRange
    rw [if_neg (by simp [dateLtB, hqprev]; omega)]
    simp only [prevQuarterYear, prevQuarterMonth, if_neg hq, hqprev]
    have : quarterMonth D.month - 3 + 2 = quarterMonth D.month - 1 := by omega
    rw [this]

theorem prev_year_range_aux (entries : List (String × PyVal)) (tiso : String) (D : Date)
    (hpre : (alGet entries "preset").getD PyVal.pnone = PyVal.pstr "prev_year")
    (hD : parseDate tiso = some D)
    (hok : 2 ≤ D.year) :
    to_absolute_range (PyVal.pdict entries) tiso =
      some ((Date.mk (D.year - 1) 1 1).iso ++ " to " ++ (Date.mk (D.year - 1) 12 31).iso) := by
  rw [to_absolute_range_dispatch entries tiso "prev_year" D hpre (by decide) hD]
  rw [rangeFor_prev_year]
  rw [if_pos hok]
  simp only [Option.map_some', Option.some.injEq]
  unfold fmtRange
  rw [if_neg (by simp [dateLtB]; try omega)]

theorem presetFails_yesterday (entries : List (String × PyVal)) (D : Date) :
    presetFails entries "yesterday" D = (D = ⟨1, 1, 1⟩) := rfl

theorem presetFails_today (entries : List (String × PyVal)) (D : Date) :
    presetFails entries "today" D = False := rfl

theorem presetFails_last_n_days (entries : List (String × PyVal)) (D : Date) :
    presetFails entries "last_n_days" D =
      (match pyIntVal ((alGet entries "n").getD (PyVal.pint 7)) with
       | none => True
       | some k => k < 1 ∨ rataDie D < k) := rfl

theorem presetFails_mtd (entries : List (String × PyVal)) (D : Date) :
    presetFails entries "mtd" D = False := rfl

theorem presetFails_qtd (entries : List (String × PyVal)) (D : Date) :
    presetFails entries "qtd" D = False := rfl

theorem presetFails_ytd (entries : List (String × PyVal)) (D : Date) :
    presetFails entries "ytd" D = False := rfl

theorem presetFails_prev_month (entries : List (String × PyVal)) (D : Date) :
    presetFails entries "prev_month" D = (D.year = 1 ∧ D.month = 1) := rfl

theorem presetFails_prev_quarter (entries : List (String × PyVal)) (D : Date) :
    presetFails entries "prev_quarter" D = (D.year = 1 ∧ D.month ≤ 3) := rfl

theorem presetFails_prev_year (entries : List (String × PyVal)) (D : Date) :
    presetFails entries "prev_year" D = (D.year = 1) := rfl

theorem presetFails_absolute (entries : List (String × PyVal)) (D : Date) :
    presetFails entries "absolute" D =
      (match (alGet entries "start").getD PyVal.pnone,
             (alGet entries "end").getD PyVal.pnone with
       | PyVal.pstr ss, PyVal.pstr es =>
         ss = "" ∨ es = "" ∨ parseDate ss = none ∨ parseDate es = none
       | _, _ => True) := rfl

theorem presetFails_unknown (entries : List (String × PyVal)) (p : String) (D : Date)
    (h1 : p ≠ "yesterday") (h2 : p ≠ "today") (h3 : p ≠ "last_n_days")
    (h4 : p ≠ "mtd") (h5 : p ≠ "qtd") (h6 : p ≠ "ytd") (h7 : p ≠ "prev_month")
    (h8 : p ≠ "prev_quarter") (h9 : p ≠ "prev_year") (h10 : p ≠ "absolute") :
    presetFails entries p D = True := by
  unfold presetFails
  rw [if_neg h1, if_neg h2, if_neg h3, if_neg h4, if_neg h5, if_neg h6,
      if_neg h7, if_neg h8, if_neg h9, if_neg h10]

theorem rangeFor_none_iff (entries : List (String × PyVal)) (p : String) (D : Date)
    (hD : D.validB = true) :
    rangeFor entries p D = none ↔ presetFails entries p D := by
  obtain ⟨hy1, hy2, hm1, hm2, hd1, hd2⟩ := validB_bounds D hD
  by_cases c1 : p = "yesterday"
  · subst c1
    rw [rangeFor_yesterday, presetFails_yesterday]
    rw [Option.map_eq_none']
    exact prevDay_none_iff D hD
  by_cases c2 : p = "today"
  · subst c2
    rw [rangeFor_today, presetFails_today]
    simp
  by_cases c3 : p = "last_n_days"
  · subst c3
    rw [rangeFor_last_n_days, presetFails_last_n_days]
    cases hn : pyIntVal ((alGet entries "n").getD (PyVal.pint 7)) with
    | none => simp
    | some k =>
      simp only
      by_cases hk : k < 1
      · simp [hk]
      · rw [if_neg hk, Option.map_eq_none']
        rw [subDays_none_iff D hD]
        have hc : ((k - 1).toNat : Int) = k - 1 := Int.toNat_of_nonneg (by omega)
        constructor
        · intro hle
          right
          omega
        · intro hor
          rcases hor with h | h
          · exact absurd h hk
          · omega
  by_cases c4 : p = "mtd"
  · subst c4
    rw [rangeFor_mtd, presetFails_mtd]
    simp
  by_cases c5 : p = "qtd"
  · subst c5
    rw [rangeFor_qtd, presetFails_qtd]
    simp
  by_cases c6 : p = "ytd"
  · subst c6
    rw [rangeFor_ytd, presetFails_ytd]
    simp
  by_cases c7 : p = "prev_month"
  · subst c7
    rw [rangeFor_prev_month, presetFails_prev_month]
    rw [Option.map_eq_none']
    rw [prevDay_none_iff _ (mk1_valid _ _ hy1 hy2 hm1 hm2)]
    simp [Date.mk.injEq]
  by_cases c8 : p = "prev_quarter"
  · subst c8
    rw [rangeFor_prev_quarter, presetFails_prev_quarter]
    rw [Option.map_eq_none']
    obtain ⟨hq1, hq2⟩ := quarterMonth_bounds D.month hm1 hm2
    rw [prevDay_none_iff _ (mk1_valid _ _ hy1 hy2 hq1 (by omega))]
    simp only [Date.mk.injEq]
    constructor
    · rintro ⟨hyy, hqq, -⟩
      refine ⟨hyy, ?_⟩
      simp only [quarterMonth] at hqq
      omega
    · rintro ⟨hyy, hmm⟩
      refine ⟨hyy, ?_, trivial⟩
      simp only [quarterMonth]
      omega
  by_cases c9 : p = "prev_year"
  · subst c9
    rw [rangeFor_prev_year, presetFails_prev_year]
    split_ifs with hyy
    · simp
      omega
    · simp
      omega
  by_cases c10 : p = "absolute"
  · subst c10
    rw [rangeFor_absolute, presetFails_absolute]
    cases hsv : (alGet entries "start").getD PyVal.pnone with
    | pstr ss =>
      cases hev : (alGet entries "end").getD PyVal.pnone with
      | pstr es =>
        simp only
        by_cases hss : ss = ""
        · rw [if_pos (by simp [pyTruthy, hss])]
          simp [hss]
        · by_cases hes : es = ""
          · rw [if_pos (by simp [pyTruthy, hes])]
            simp [hes]
          · rw [if_neg (by simp [pyTruthy, hss, hes])]
            cases hps : parseDate ss with
            | none => simp [hps, hss, hes]
            | some sd =>
              cases hpe : parseDate es with
              | none => simp [hps, hpe, hss, hes]
              | some ed => simp [hps, hpe, hss, hes]
      | pint n => split_ifs <;> simp
      | pbool b => split_ifs <;> simp
      | pnone => split_ifs <;> simp
      | plist l => split_ifs <;> simp
      | pdict dd => split_ifs <;> simp
    | pint n =>
      cases hev : (alGet entries "end").getD PyVal.pnone <;> split_ifs <;> simp
    | pbool b =>
      cases hev : (alGet entries "end").getD PyVal.pnone <;> split_ifs <;> simp
    | pnone =>
      cases hev : (alGet entries "end").getD PyVal.pnone <;> split_ifs <;> simp
    | plist l =>
      cases hev : (alGet entries "end").getD PyVal.pnone <;> split_ifs <;> simp
    | pdict dd =>
      cases hev : (alGet entries "end").getD PyVal.pnone <;> split_ifs <;> simp
  rw [rangeFor_unknown entries p D c1 c2 c3 c4 c5 c6 c7 c8 c9 c10,
      presetFails_unknown entries p D c1 c2 c3 c4 c5 c6 c7 c8 c9 c10]
  simp

theorem to_absolute_range_none_iff (ti : PyVal) (tiso : String) :
    to_absolute_range ti tiso = none ↔ normFails ti tiso := by
  cases ti with
  | pdict entries =>
    by_cases he : entries.isEmpty
    · simp [to_absolute_range, normFails, he]
    · simp only [Bool.not_eq_true] at he
      by_cases hp : pyTruthy ((alGet entries "preset").getD PyVal.pnone) = false
      · simp [to_absolute_range, normFails, he, hp]
      · have hp' : pyTruthy ((alGet entries "preset").getD PyVal.pnone) = true := by
          cases hb : pyTruthy ((alGet entries "preset").getD PyVal.pnone)
          · exact absurd hb hp
          · rfl
        cases hpd : parseDate tiso with
        | none => simp [to_absolute_range, normFails, he, hp', hpd]
        | some D =>
          have hDv := parseDate_valid _ _ hpd
          cases hpre : (alGet entries "preset").getD PyVal.pnone with
          | pstr p =>
            have hpp : pyTruthy (PyVal.pstr p) = true := by rw [← hpre]; exact hp'
            simp only [to_absolute_range, normFails, he, hp', hpd, hpre, hpp,
              Bool.false_eq_true, if_false, Bool.not_true, Option.some.injEq,
              forall_eq', reduceCtorEq, false_or, Bool.true_eq_false, or_false]
            rw [Option.map_eq_none']
            exact rangeFor_none_iff entries p D hDv
          | pint n => simp [to_absolute_range, normFails, he, hp', hpd, hpre]
          | pbool b => simp [to_absolute_range, normFails, he, hp', hpd, hpre]
          | pnone => simp [to_absolute_range, normFails, he, hp', hpd, hpre]
          | plist l => simp [to_absolute_range, normFails, he, hp', hpd, hpre]
          | pdict dd => simp [to_absolute_range, normFails, he, hp', hpd, hpre]
  | pstr s => simp [to_absolute_range, normFails]
  | pint n => simp [to_absolute_range, normFails]
  | pbool b => simp [to_absolute_range, normFails]
  | pnone => simp [to_absolute_range, normFails]
  | plist l => simp [to_absolute_range, normFails]

theorem alGetS_set_self (d : List (String × String)) (k : String) (v : String) :
    alGetS (alSetS d k v) k = some v := by
  induction d with
  | nil => simp [alSetS, alGetS]
  | cons e es ih =>
    obtain ⟨ek, ev⟩ := e
    by_cases h : ek = k
    · simp [alSetS, alGetS, h]
    · simp [alSetS, alGetS, h, ih]

theorem alGetS_set_ne (d : List (String × String)) (k k' : String) (v : String)
    (h : k ≠ k') : alGetS (alSetS d k v) k' = alGetS d k' := by
  induction d with
  | nil => simp [alSetS, alGetS, h]
  | cons e es ih =>
    obtain ⟨ek, ev⟩ := e
    by_cases he : ek = k
    · subst he
      rw [alSetS.eq_def]
      simp only [if_pos rfl]
      simp [alGetS, h]
    · by_cases he' : ek = k'
      · subst he'
        rw [alSetS.eq_def]
        simp only [if_neg he]
        simp [alGetS]
      · simp [alSetS, alGetS, he, he', ih]

theorem add_filters_spec (txt : String) (q : List (String × String)) :
    (∀ k, k ≠ "date" → alGetS (add_filters none txt q) k = alGetS q k) ∧
    (∀ ds, searchNum "last ".data " day".data (txt.data.map Char.toLower) = some ds →
      add_filters none txt q = alSetS q "date" ("last " ++ String.mk ds ++ " days")) ∧
    (searchNum "last ".data " day".data (txt.data.map Char.toLower) = none →
      ∀ ds, searchNum "past ".data " month".data (txt.data.map Char.toLower) = some ds →
      add_filters none txt q = alSetS q "date" ("last " ++ String.mk ds ++ " months")) ∧
    (searchNum "last ".data " day".data (txt.data.map Char.toLower) = none →
      searchNum "past ".data " month".data (txt.data.map Char.toLower) = none →
      ∀ ys, searchYear4 (txt.data.map Char.toLower) = some ys →
      add_filters none txt q = alSetS q "date" ("year " ++ String.mk ys)) ∧
    (searchNum "last ".data " day".data (txt.data.map Char.toLower) = none →
      searchNum "past ".data " month".data (txt.data.map Char.toLower) = none →
      searchYear4 (txt.data.map Char.toLower) = none →
      add_filters none txt q = q) := by
  refine ⟨?_, ?_, ?_, ?_, ?_⟩
  · intro k hk
    simp only [add_filters]
    cases h1 : searchNum "last ".data " day".data (txt.data.map Char.toLower) with
    | some ds => exact alGetS_set_ne q "date" k _ (fun hc => hk hc.symm)
    | none =>
      cases h2 : searchNum "past ".data " month".data (txt.data.map Char.toLower) with
      | some ds => exact alGetS_set_ne q "date" k _ (fun hc => hk hc.symm)
      | none =>
        cases h3 : searchYear4 (txt.data.map Char.toLower) with
        | some ys => exact alGetS_set_ne q "date" k _ (fun hc => hk hc.symm)
        | none => rfl
  · intro ds h1
    simp only [add_filters, h1]
  · intro h1 ds h2
    simp only [add_filters, h1, h2]
  · intro h1 h2 ys h3
    simp only [add_filters, h1, h2, h3]
  · intro h1 h2 h3
    simp only [add_filters, h1, h2, h3]

theorem validate_query_no_unknown (dimKeys measKeys qdims qmeas : List String) (f : String)
    (hd : f ∉ dimKeys) (hm : f ∉ measKeys) :
    f ∉ (validate_query dimKeys measKeys qdims qmeas).dimensions ∧
    f ∉ (validate_query dimKeys measKeys qdims qmeas).measures := by
  simp only [validate_query]
  split_ifs with hb
  · constructor
    · cases dimKeys with
      | nil => simp
      | cons k l =>
        simp only [List.mem_singleton]
        intro hc
        exact hd (hc ▸ List.mem_cons_self k l)
    · cases measKeys with
      | nil => simp
      | cons k l =>
        simp only [List.mem_singleton]
        intro hc
        exact hm (hc ▸ List.mem_cons_self k l)
  · constructor
    · intro hc
      simp only [List.mem_filter, decide_eq_true_eq] at hc
      exact hd hc.2
    · intro hc
      simp only [List.mem_filter, decide_eq_true_eq] at hc
      exact hm hc.2

theorem validate_query_fields_report (avail fields : List String) :
    ((validate_query_fields avail fields).valid = true ↔ ∀ g ∈ fields, g ∈ avail) ∧
    (validate_query_fields avail fields).invalid_fields =
      fields.filter (fun g => decide (g ∉ avail)) := by
  unfold validate_query_fields
  refine ⟨?_, rfl⟩
  simp only [decide_eq_true_eq, List.length_eq_zero, List.filter_eq_nil_iff,
    not_not]

/-- C1 counterexample: with the valid reference date 0001-01-02 and
n = 3 (an integer with n at least 1), the normalizer returns null rather
than a 3-day range, because 0001-01-02 minus 2 days precedes the minimum
Python date and the resulting OverflowError is caught and turned into
None. -/
theorem c1_last_n_days_underflow_cex :
    parseDate "0001-01-02" = some ⟨1, 1, 2⟩ ∧
    to_absolute_range (PyVal.pdict [("preset", PyVal.pstr "last_n_days"),
      ("n", PyVal.pint 3)]) "0001-01-02" = none := ⟨rfl, rfl⟩

/-- C1 (amended): for every integer n with 1 ≤ n and reference date D
given in YYYY-MM-DD form, provided D minus (n-1) days is still a
representable date S, last_n_days(n) normalizes to the string
"S to D" — the range ends at D and spans exactly n days (its rata-die
endpoints differ by n-1); otherwise the normalizer returns null. -/
theorem c1_last_n_days_range (entries : List (String × PyVal)) (tiso : String)
    (D S : Date) (n : Int)
    (hpre : (alGet entries "preset").getD PyVal.pnone = PyVal.pstr "last_n_days")
    (hn' : alGet entries "n" = some (PyVal.pint n))
    (hD : parseDate tiso = some D)
    (hn : 1 ≤ n)
    (hS : subDays D (n - 1).toNat = some S) :
    to_absolute_range (PyVal.pdict entries) tiso = some (S.iso ++ " to " ++ D.iso) ∧
    rataDie D - rataDie S = n - 1 :=
  last_n_days_range_aux entries tiso D S n hpre hn' hD hn hS

/-- C1 witness: last_n_days(7) at 2025-09-29 yields the spec's example
range 2025-09-23 to 2025-09-29, spanning exactly 7 days. -/
theorem c1_last_n_days_range_witness :
    to_absolute_range (PyVal.pdict [("preset", PyVal.pstr "last_n_days"),
      ("n", PyVal.pint 7)]) "2025-09-29" =
      some ((Date.mk 2025 9 23).iso ++ " to " ++ (Date.mk 2025 9 29).iso) ∧
    rataDie ⟨2025, 9, 29⟩ - rataDie ⟨2025, 9, 23⟩ = 7 - 1 :=
  c1_last_n_days_range [("preset", PyVal.pstr "last_n_days"), ("n", PyVal.pint 7)]
    "2025-09-29" ⟨2025, 9, 29⟩ ⟨2025, 9, 23⟩ 7 rfl rfl (by decide) (by decide) (by decide)

/-- C2: on a well-formed draft (has explore, no clarification_request,
filters absent or a dict) processed with a non-empty reference date: if
time_intent is present and the normalizer returns a range, the validator
writes the range into the filters entry for the designated date field and
deletes time_intent; if the normalizer returns null, the whole result is
the clarification object; and every non-clarification result carries no
time_intent key. -/
theorem c2_validator_time_intent (q : List (String × PyVal)) (t : String)
    (hcl : alHas q "clarification_request" = false)
    (hex : alHas q "explore" = true)
    (ht : t ≠ "")
    (hfil : alGet q "filters" = none ∨ ∃ f, alGet q "filters" = some (PyVal.pdict f)) :
    (∀ ti r, alGet q "time_intent" = some ti → to_absolute_range ti t = some r →
      ∃ q', forward_post (some t) q = some q' ∧
        (∃ f', alGet q' "filters" = some (PyVal.pdict f') ∧
          alGet f' dateFieldKey = some (PyVal.pstr r)) ∧
        alGet q' "time_intent" = none) ∧
    (∀ ti, alGet q "time_intent" = some ti → to_absolute_range ti t = none →
      forward_post (some t) q = some clarifyResult) ∧
    (∀ q', forward_post (some t) q = some q' →
      alHas q' "clarification_request" = false → alGet q' "time_intent" = none) := by
  refine ⟨?_, ?_, ?_⟩
  · intro ti r hti hr
    exact forward_post_store q t ti r hcl hex ht hfil hti hr
  · intro ti hti hr
    exact forward_post_clarify q t ti hcl hex ht hti hr
  · intro q' h hq'
    exact forward_post_no_time_intent q t q' hcl hex ht h hq'

/-- C2 witness: a draft with preset yesterday at 2025-09-29 gets the
range stored and its time_intent consumed. -/
theorem c2_validator_time_intent_witness :
    ∃ q', forward_post (some "2025-09-29")
        [("explore", PyVal.pstr "consumer_sessions"),
         ("time_intent", PyVal.pdict [("preset", PyVal.pstr "yesterday")])] = some q' ∧
      (∃ f', alGet q' "filters" = some (PyVal.pdict f') ∧
        alGet f' dateFieldKey = some (PyVal.pstr "2025-09-28 to 2025-09-28")) ∧
      alGet q' "time_intent" = none :=
  (c2_validator_time_intent
    [("explore", PyVal.pstr "consumer_sessions"),
     ("time_intent", PyVal.pdict [("preset", PyVal.pstr "yesterday")])]
    "2025-09-29" rfl rfl (by decide) (Or.inl rfl)).1
    (PyVal.pdict [("preset", PyVal.pstr "yesterday")]) "2025-09-28 to 2025-09-28" rfl rfl

/-- C3: the validator post-processing is idempotent: whenever a pass
returns a result (no uncaught exception), a second pass with the same
reference date returns the result unchanged. -/
theorem c3_validator_idempotent (t : Option String) (q q' : List (String × PyVal))
    (h : forward_post t q = some q') : forward_post t q' = some q' :=
  forward_post_idem_aux t q q' h

/-- C3 witness: re-validating the output of a successful pass leaves it
unchanged. -/
theorem c3_validator_idempotent_witness :
    forward_post (some "2025-09-29")
      [("explore", PyVal.pstr "consumer_sessions"),
       ("view", PyVal.pstr "consumer_sessions"),
       ("filters", PyVal.pdict [("consumer_sessions.visit_day_date",
          PyVal.pstr "2025-09-29 to 2025-09-29")])] =
      some [("explore", PyVal.pstr "consumer_sessions"),
       ("view", PyVal.pstr "consumer_sessions"),
       ("filters", PyVal.pdict [("consumer_sessions.visit_day_date",
          PyVal.pstr "2025-09-29 to 2025-09-29")])] :=
  c3_validator_idempotent (some "2025-09-29")
    [("explore", PyVal.pstr "consumer_sessions"),
     ("time_intent", PyVal.pdict [("preset", PyVal.pstr "today")])]
    _ rfl

/-- C4 counterexample: at the valid reference date 0001-06-15, preset
prev_year returns null (the prior year 0 is not a representable date and
the ValueError is caught), rather than a Jan 1 - Dec 31 range of the
prior year. -/
theorem c4_prev_year_cex :
    parseDate "0001-06-15" = some ⟨1, 6, 15⟩ ∧
    to_absolute_range (PyVal.pdict [("preset", PyVal.pstr "prev_year")])
      "0001-06-15" = none := ⟨rfl, rfl⟩

/-- C4 (amended): for a reference date D given in YYYY-MM-DD form,
prev_month yields the first-to-last-day range of the month before D's
month (provided that month exists, i.e. D is not in January of year 1),
prev_quarter the first-to-last-day range of the quarter before D's
quarter (provided D is not in the first quarter of year 1), and
prev_year the Jan 1 - Dec 31 range of the year before D's year (provided
D's year is at least 2); in the excluded year-1 boundary cases the
normalizer returns null. -/
theorem c4_prev_period_ranges (tiso : String) (D : Date)
    (hD : parseDate tiso = some D) :
    (∀ entries, (alGet entries "preset").getD PyVal.pnone = PyVal.pstr "prev_month" →
      (2 ≤ D.month ∨ 2 ≤ D.year) →
      to_absolute_range (PyVal.pdict entries) tiso =
        some ((Date.mk (prevMonthYear D) (prevMonthMonth D) 1).iso ++ " to " ++
          (Date.mk (prevMonthYear D) (prevMonthMonth D)
            (daysInMonth (prevMonthYear D) (prevMonthMonth D))).iso)) ∧
    (∀ entries, (alGet entries "preset").getD PyVal.pnone = PyVal.pstr "prev_quarter" →
      (4 ≤ quarterMonth D.month ∨ 2 ≤ D.year) →
      to_absolute_range (PyVal.pdict entries) tiso =
        some ((Date.mk (prevQuarterYear D) (prevQuarterMonth D) 1).iso ++ " to " ++
          (Date.mk (prevQuarterYear D) (prevQuarterMonth D + 2)
            (daysInMonth (prevQuarterYear D) (prevQuarterMonth D + 2))).iso)) ∧
    (∀ entries, (alGet entries "preset").getD PyVal.pnone = PyVal.pstr "prev_year" →
      2 ≤ D.year →
      to_absolute_range (PyVal.pdict entries) tiso =
        some ((Date.mk (D.year - 1) 1 1).iso ++ " to " ++
          (Date.mk (D.year - 1) 12 31).iso)) :=
  ⟨fun entries hpre hok => prev_month_range_aux entries tiso D hpre hD hok,
   fun entries hpre hok => prev_quarter_range_aux entries tiso D hpre hD hok,
   fun entries hpre hok => prev_year_range_aux entries tiso D hpre hD hok⟩

/-- C4 witness: the three prior-period presets at concrete dates,
including the spec's example prev_month at 2025-09-05 giving
2025-08-01 to 2025-08-31. -/
theorem c4_prev_period_ranges_witness :
    to_absolute_range (PyVal.pdict [("preset", PyVal.pstr "prev_month")])
      "2025-09-05" = some "2025-08-01 to 2025-08-31" ∧
    to_absolute_range (PyVal.pdict [("preset", PyVal.pstr "prev_quarter")])
      "2025-09-05" = some "2025-04-01 to 2025-06-30" ∧
    to_absolute_range (PyVal.pdict [("preset", PyVal.pstr "prev_year")])
      "2025-09-05" = some "2024-01-01 to 2024-12-31" := by
  have h := c4_prev_period_ranges "2025-09-05" ⟨2025, 9, 5⟩ rfl
  refine ⟨?_, ?_, ?_⟩
  · exact (h.1 [("preset", PyVal.pstr "prev_month")] rfl (Or.inl (by norm_num))).trans (by decide)
  · exact (h.2.1 [("preset", PyVal.pstr "prev_quarter")] rfl (Or.inl (by decide))).trans (by decide)
  · exact (h.2.2 [("preset", PyVal.pstr "prev_year")] rfl (by norm_num)).trans (by decide)

/-- C5: every non-null result of the Time-Intent Normalizer is a string
of the exact form "start to end" where start and end are valid calendar
dates in YYYY-MM-DD order with start at most end; in particular the
reversed absolute range of the spec's example is swapped, not
rejected. -/
theorem c5_normalizer_output_shape :
    (∀ ti tiso r, to_absolute_range ti tiso = some r →
      ∃ a b : Date, a.validB = true ∧ b.validB = true ∧ dateLeB a b = true ∧
        r = a.iso ++ " to " ++ b.iso) ∧
    to_absolute_range (PyVal.pdict [("preset", PyVal.pstr "absolute"),
      ("start", PyVal.pstr "2025-09-10"), ("end", PyVal.pstr "2025-09-01")])
      "2025-09-29" = some "2025-09-01 to 2025-09-10" :=
  ⟨to_absolute_range_shape, by decide⟩

/-- C5 witness: the shape property applied to the swapped absolute
example. -/
theorem c5_normalizer_output_shape_witness :
    ∃ a b : Date, a.validB = true ∧ b.validB = true ∧ dateLeB a b = true ∧
      "2025-09-01 to 2025-09-10" = a.iso ++ " to " ++ b.iso :=
  c5_normalizer_output_shape.1
    (PyVal.pdict [("preset", PyVal.pstr "absolute"),
      ("start", PyVal.pstr "2025-09-10"), ("end", PyVal.pstr "2025-09-01")])
    "2025-09-29" "2025-09-01 to 2025-09-10" c5_normalizer_output_shape.2

/-- C6 counterexample: with the valid, well-formed reference date
0001-01-01 and the recognized preset yesterday (a non-empty dict with a
truthy preset, no numeric or absolute constraints involved), the
normalizer still returns null: the day before the minimum Python date
raises OverflowError, which the catch-all handler turns into None.  This
null case is not among the failure cases the claim lists. -/
theorem c6_unlisted_null_cex :
    to_absolute_range (PyVal.pdict [("preset", PyVal.pstr "yesterday")])
      "0001-01-01" = none ∧
    parseDate "0001-01-01" = some ⟨1, 1, 1⟩ ∧
    pyTruthy ((alGet [("preset", PyVal.pstr "yesterday")] "preset").getD PyVal.pnone) =
      true := ⟨rfl, rfl, rfl⟩

/-- C6 (amended): the normalizer is total (every input yields a range or
null) and returns null exactly when the input is not a dict or an empty
dict, the preset is missing or falsy, the reference date does not parse,
the preset is unrecognized or non-string, last_n_days gets a
non-integer n or n below 1 or a span reaching before 0001-01-01,
absolute gets missing/non-string/unparseable bounds, or a prior-period
preset falls off the year-1 calendar boundary (see normFails). -/
theorem c6_normalizer_null_iff (ti : PyVal) (tiso : String) :
    to_absolute_range ti tiso = none ↔ normFails ti tiso :=
  to_absolute_range_none_iff ti tiso

/-- C7 counterexample: LookerQueryBuilder.validate_query on a query
referencing the unknown field bogus silently drops it and returns a
plain query over the remaining fields; no ClarificationRequest is
produced and the problem is not reported. -/
theorem c7_silent_strip_cex :
    validate_query ["country"] ["revenue"] ["bogus", "country"] ["revenue"] =
      ⟨["country"], ["revenue"]⟩ := by decide

/-- C7 (amended): a field absent from the schema never survives into the
validated query (validate_query strips it silently, falling back to the
first schema dimension/measure when everything is stripped), and
ExploreSchemaLoader.validate_query_fields reports unknown fields in its
result dict (valid is true exactly when every field is known, and
invalid_fields lists exactly the unknown ones) without producing any
ClarificationRequest. -/
theorem c7_unknown_field_handling (dimKeys measKeys qdims qmeas : List String)
    (f : String) (avail fields : List String)
    (hd : f ∉ dimKeys) (hm : f ∉ measKeys) :
    (f ∉ (validate_query dimKeys measKeys qdims qmeas).dimensions ∧
     f ∉ (validate_query dimKeys measKeys qdims qmeas).measures) ∧
    ((validate_query_fields avail fields).valid = true ↔ ∀ g ∈ fields, g ∈ avail) ∧
    (validate_query_fields avail fields).invalid_fields =
      fields.filter (fun g => decide (g ∉ avail)) :=
  ⟨validate_query_no_unknown dimKeys measKeys qdims qmeas f hd hm,
   (validate_query_fields_report avail fields).1,
   (validate_query_fields_report avail fields).2⟩

/-- C7 witness: the unknown field bogus is gone from the validated query
and flagged by validate_query_fields. -/
theorem c7_unknown_field_handling_witness :
    ("bogus" ∉ (validate_query ["country"] ["revenue"] ["bogus", "country"]
        ["revenue"]).dimensions ∧
     "bogus" ∉ (validate_query ["country"] ["revenue"] ["bogus", "country"]
        ["revenue"]).measures) ∧
    ((validate_query_fields ["country", "revenue"] ["bogus", "revenue"]).valid = true ↔
      ∀ g ∈ ["bogus", "revenue"], g ∈ ["country", "revenue"]) ∧
    (validate_query_fields ["country", "revenue"] ["bogus", "revenue"]).invalid_fields =
      ["bogus", "revenue"].filter (fun g => decide (g ∉ ["country", "revenue"])) :=
  c7_unknown_field_handling ["country"] ["revenue"] ["bogus", "country"] ["revenue"]
    "bogus" ["country", "revenue"] ["bogus", "revenue"] (by decide) (by decide)

/-- C9 counterexample: in "sessions in january" the month-name pattern is
the first (and only) of the four date patterns to match, yet
_add_filters sets no date filter at all: the if/elif chain inside the
loop has no branch for the month-name pattern, so the match only stops
the scan. -/
theorem c9_month_name_no_filter_cex :
    searchNum "last ".data " day".data ("sessions in january".data.map Char.toLower) =
      none ∧
    searchNum "past ".data " month".data ("sessions in january".data.map Char.toLower) =
      none ∧
    searchYear4 ("sessions in january".data.map Char.toLower) = none ∧
    hasMonthName ("sessions in january".data.map Char.toLower) = true ∧
    add_filters none "sessions in january" [] = [] := ⟨rfl, rfl, rfl, rfl, rfl⟩

/-- C9 (amended): _add_filters tries the four date patterns in the fixed
source order on the lower-cased text and the first match ends the scan;
a "last N days", "past N months" or bare-4-digit-year first match writes
exactly one filter entry, at the single key "date"; a month-name match
(or no match) writes nothing; no other key is ever touched. -/
theorem c9_add_filters_first_match (txt : String) (q : List (String × String)) :
    (∀ k, k ≠ "date" → alGetS (add_filters none txt q) k = alGetS q k) ∧
    (∀ ds, searchNum "last ".data " day".data (txt.data.map Char.toLower) = some ds →
      add_filters none txt q = alSetS q "date" ("last " ++ String.mk ds ++ " days")) ∧
    (searchNum "last ".data " day".data (txt.data.map Char.toLower) = none →
      ∀ ds, searchNum "past ".data " month".data (txt.data.map Char.toLower) = some ds →
      add_filters none txt q = alSetS q "date" ("last " ++ String.mk ds ++ " months")) ∧
    (searchNum "last ".data " day".data (txt.data.map Char.toLower) = none →
      searchNum "past ".data " month".data (txt.data.map Char.toLower) = none →
      ∀ ys, searchYear4 (txt.data.map Char.toLower) = some ys →
      add_filters none txt q = alSetS q "date" ("year " ++ String.mk ys)) ∧
    (searchNum "last ".data " day".data (txt.data.map Char.toLower) = none →
      searchNum "past ".data " month".data (txt.data.map Char.toLower) = none →
      searchYear4 (txt.data.map Char.toLower) = none →
      add_filters none txt q = q) :=
  add_filters_spec txt q

/-- C9 witness: "show sessions last 7 days" produces exactly the single
filter entry date = "last 7 days". -/
theorem c9_add_filters_first_match_witness :
    add_filters none "show sessions last 7 days" [] = [("date", "last 7 days")] := by
  have h := (c9_add_filters_first_match "show sessions last 7 days" []).2.1 ['7'] rfl
  exact h.trans (by decide)

/-- C10: whenever the validator successfully normalizes a time_intent,
the resulting range is written under the one fixed filter key
consumer_sessions.visit_day_date, and any "field" entry inside the
time_intent object is ignored: changing it never changes the
normalizer's result. -/
theorem c10_fixed_date_field (q : List (String × PyVal)) (t : String) (ti : PyVal)
    (r : String)
    (hcl : alHas q "clarification_request" = false)
    (hex : alHas q "explore" = true)
    (ht : t ≠ "")
    (hfil : alGet q "filters" = none ∨ ∃ f, alGet q "filters" = some (PyVal.pdict f))
    (hti : alGet q "time_intent" = some ti)
    (hr : to_absolute_range ti t = some r) :
    (∃ q', forward_post (some t) q = some q' ∧
      ∃ f', alGet q' "filters" = some (PyVal.pdict f') ∧
        alGet f' "consumer_sessions.visit_day_date" = some (PyVal.pstr r)) ∧
    (∀ d v, ti = PyVal.pdict d →
      to_absolute_range (PyVal.pdict (alSet d "field" v)) t = to_absolute_range ti t) := by
  constructor
  · obtain ⟨q', h1, h2, _⟩ := forward_post_store q t ti r hcl hex ht hfil hti hr
    exact ⟨q', h1, h2⟩
  · intro d v hd
    subst hd
    exact to_absolute_range_set_field d v t

/-- C10 witness: a time_intent carrying field = "orders.created_date" is
still stored under consumer_sessions.visit_day_date, and overwriting the
field entry does not change the normalized range. -/
theorem c10_fixed_date_field_witness :
    (∃ q', forward_post (some "2025-09-29")
        [("explore", PyVal.pstr "consumer_sessions"),
         ("time_intent", PyVal.pdict [("preset", PyVal.pstr "mtd"),
            ("field", PyVal.pstr "orders.created_date")])] = some q' ∧
      ∃ f', alGet q' "filters" = some (PyVal.pdict f') ∧
        alGet f' "consumer_sessions.visit_day_date" =
          some (PyVal.pstr "2025-09-01 to 2025-09-29")) ∧
    to_absolute_range (PyVal.pdict (alSet [("preset", PyVal.pstr "mtd"),
        ("field", PyVal.pstr "orders.created_date")] "field"
        (PyVal.pstr "consumer_sessions.other"))) "2025-09-29" =
      to_absolute_range (PyVal.pdict [("preset", PyVal.pstr "mtd"),
        ("field", PyVal.pstr "orders.created_date")]) "2025-09-29" := by
  have h := c10_fixed_date_field
    [("explore", PyVal.pstr "consumer_sessions"),
     ("time_intent", PyVal.pdict [("preset", PyVal.pstr "mtd"),
        ("field", PyVal.pstr "orders.created_date")])]
    "2025-09-29"
    (PyVal.pdict [("preset", PyVal.pstr "mtd"),
      ("field", PyVal.pstr "orders.created_date")])
    "2025-09-01 to 2025-09-29" rfl rfl (by decide) (Or.inl rfl) rfl rfl
  exact ⟨h.1, h.2 _ (PyVal.pstr "consumer_sessions.other") rfl⟩
